import Mathlib

/-!
Verification of the AutoLens CAN/CAN-FD analyzer core against its
natural-language specification.  The definitions below are shallow
embeddings of the C++ sources: the DLC codec and frame record of
src/hardware/CANInterface.h, the trace model of src/trace/TraceModel.cpp,
the engine facade state machine of src/app/AppController.cpp, and the
ASC/BLF trace codecs of src/trace/TraceExporter.cpp and
src/trace/TraceImporter.cpp.  Machine integers are modelled as Nat/Int
with explicit wrap-around where the C++ performs a narrowing conversion;
Qt containers are modelled as lists; fallible operations return Except.
-/

namespace AutoLens

/-! ## DLC codec (src/hardware/CANInterface.h, dlcToLength / lengthToDlc) -/

/-- The CAN-FD DLC table of CANInterface.h line 46. -/
def dlcTable : List Nat := [0, 1, 2, 3, 4, 5, 6, 7, 8, 12, 16, 20, 24, 32, 48, 64]

/-- Embedding of dlcToLength: classic CAN maps 1:1, FD codes 9..15 map through
the table, and any argument above 15 yields 64. -/
def dlcToLength (dlc : Nat) : Nat :=
  if dlc ≤ 15 then dlcTable.getD dlc 0 else 64

/-- Embedding of lengthToDlc: the C++ takes an int and returns a uint8_t, so
the first branch narrows the argument modulo 256 exactly as the C++
static_cast does. -/
def lengthToDlc (byteCount : Int) : Nat :=
  if byteCount ≤ 8 then (byteCount % 256).toNat
  else if byteCount ≤ 12 then 9
  else if byteCount ≤ 16 then 10
  else if byteCount ≤ 20 then 11
  else if byteCount ≤ 24 then 12
  else if byteCount ≤ 32 then 13
  else if byteCount ≤ 48 then 14
  else 15

/-! ## CANMessage (src/hardware/CANInterface.h) -/

/-- Embedding of CANManager::CANMessage.  The fixed uint8_t data[64] buffer is
a list of byte values; the uint32_t id, uint8_t channel and uint64_t
timestamp are Nat with their C++ ranges tracked where a claim needs them. -/
structure CANMessage where
  id : Nat := 0
  data : List Nat := List.replicate 64 0
  dlc : Nat := 0
  isExtended : Bool := false
  isFD : Bool := false
  isBRS : Bool := false
  isRemote : Bool := false
  isError : Bool := false
  isTxConfirm : Bool := false
  channel : Nat := 1
  timestamp : Nat := 0
  deriving DecidableEq, Repr

/-- Embedding of CANMessage::dataLength. -/
def CANMessage.dataLength (m : CANMessage) : Nat :=
  if m.isFD then dlcToLength m.dlc else min m.dlc 8

/-- C8: for every byte count n in [0,64], dlcToLength (lengthToDlc n) is at
least n, and for every DLC code d in [0,15], lengthToDlc (dlcToLength d) = d.
Both embedded functions are total Lean functions, mirroring the total and
infallible C++ inline functions. -/
theorem dlc_roundtrip :
    (∀ n : Fin 65, (n : Nat) ≤ dlcToLength (lengthToDlc (n : Nat))) ∧
    (∀ d : Fin 16, lengthToDlc (dlcToLength (d : Nat)) = (d : Nat)) := by
  constructor
  · decide
  · decide

/-! ## Trace model (src/trace/TraceModel.h / TraceModel.cpp)

The QAbstractItemModel is embedded as a state record (frames, display mode,
in-place row index) together with an explicit trace of the structural
notifications each operation emits (beginRemoveRows / beginInsertRows /
dataChanged / model reset).  The QHash of in-place rows is an association
list with unique keys. -/

/-- Embedding of SignalRow (TraceModel.h). -/
structure SignalRow where
  name : String := ""
  valueStr : String := ""
  rawStr : String := ""
  deriving DecidableEq, Repr

/-- Embedding of TraceEntry (TraceModel.h): the raw frame, the pre-formatted
column strings, and the decoded signal child rows. -/
structure TraceEntry where
  msg : CANMessage := {}
  timeStr : String := ""
  nameStr : String := ""
  idStr : String := ""
  chnStr : String := ""
  eventTypeStr : String := ""
  dirStr : String := ""
  dlcStr : String := ""
  dataStr : String := ""
  decodedSignals : List SignalRow := []
  deriving DecidableEq, Repr

/-- Embedding of TraceModel::DisplayMode. -/
inductive DisplayMode where
  | append
  | inPlace
  deriving DecidableEq, Repr

/-- TraceModel::MAX_ROWS. -/
def MAX_ROWS : Nat := 100000

/-- TraceModel::PURGE_CHUNK. -/
def PURGE_CHUNK : Nat := 5000

/-- Structural model notifications.  A parent of none is the root (frame
level); a parent of some r is the frame row r (signal child level). -/
inductive ModelEvent where
  | removeRows (parent : Option Nat) (first last : Nat)
  | insertRows (parent : Option Nat) (first last : Nat)
  | rowDataChanged (frameRow : Nat)
  | childDataChanged (frameRow : Nat) (first last : Nat)
  | modelReset
  deriving DecidableEq, Repr

/-- State of a TraceModel instance: m_frames, m_displayMode, m_inPlaceRows. -/
structure ModelState where
  frames : List TraceEntry := []
  displayMode : DisplayMode := .append
  inPlaceRows : List (Nat × Nat) := []
  deriving DecidableEq, Repr

/-- Association-list lookup mirroring QHash::constFind. -/
def mapFind (m : List (Nat × Nat)) (k : Nat) : Option Nat :=
  (m.find? (fun p => p.1 = k)).map (·.2)

/-- Association-list removal mirroring QHash::remove. -/
def mapRemove (m : List (Nat × Nat)) (k : Nat) : List (Nat × Nat) :=
  m.filter (fun p => ¬ p.1 = k)

/-- Association-list insertion mirroring QHash::insert (replaces any previous
binding of the key). -/
def mapInsert (m : List (Nat × Nat)) (k v : Nat) : List (Nat × Nat) :=
  (k, v) :: mapRemove m k

/-- Embedding of TraceModel::makeEntryKey.  msg.id is stored in a uint32_t in
the C++, hence the modulus; channel is a uint8_t masked with 0xFF. -/
def makeEntryKey (entry : TraceEntry) : Nat :=
  let msg := entry.msg
  (msg.id % 2 ^ 32) +
    (msg.channel % 256) * 2 ^ 32 +
    (if msg.isExtended then 2 ^ 40 else 0) +
    (if msg.isRemote then 2 ^ 41 else 0) +
    (if msg.isError then 2 ^ 42 else 0) +
    (if msg.isFD then 2 ^ 43 else 0) +
    (if msg.isTxConfirm then 2 ^ 44 else 0)

/-- Embedding of TraceModel::rebuildInPlaceIndex. -/
def rebuildInPlaceIndex (st : ModelState) : ModelState :=
  if st.displayMode = .inPlace then
    { st with
      inPlaceRows :=
        (List.range st.frames.length).foldl
          (fun m row => mapInsert m (makeEntryKey (st.frames.getD row {})) row) [] }
  else
    { st with inPlaceRows := [] }

/-- Embedding of TraceModel::purgeOldestRows. -/
def purgeOldestRows (st : ModelState) (count : Nat) :
    ModelState × List ModelEvent :=
  if count = 0 ∨ st.frames = [] then (st, [])
  else
    let c := min count st.frames.length
    let st1 := { st with frames := st.frames.drop c }
    let st2 :=
      if st1.displayMode = .inPlace then rebuildInPlaceIndex st1 else st1
    (st2, [.removeRows none 0 (c - 1)])

/-- Embedding of TraceModel::updateInPlaceRow.  The C++ first removes or
appends signal child rows on the stored entry with their notifications, then
overwrites the whole entry; the net frame list is a set at the row. -/
def updateInPlaceRow (st : ModelState) (row : Nat) (entry : TraceEntry) :
    ModelState × List ModelEvent :=
  if row < st.frames.length then
    let oldCount := (st.frames.getD row {}).decodedSignals.length
    let newCount := entry.decodedSignals.length
    let removeEv : List ModelEvent :=
      if newCount < oldCount then [.removeRows (some row) newCount (oldCount - 1)]
      else []
    let insertEv : List ModelEvent :=
      if oldCount < newCount then [.insertRows (some row) oldCount (newCount - 1)]
      else []
    let childEv : List ModelEvent :=
      if 0 < newCount then [.childDataChanged row 0 (newCount - 1)] else []
    ({ st with frames := st.frames.set row entry },
      removeEv ++ insertEv ++ [.rowDataChanged row] ++ childEv)
  else (st, [])

/-- Embedding of TraceModel::addEntriesAppend. -/
def addEntriesAppend (st : ModelState) (entries : List TraceEntry) :
    ModelState × List ModelEvent :=
  if entries = [] then (st, [])
  else
    let incoming := entries.length
    let current := st.frames.length
    let purged :=
      if MAX_ROWS < current + incoming then
        purgeOldestRows st (min (max (current + incoming - MAX_ROWS) PURGE_CHUNK) current)
      else (st, [])
    let st1 := purged.1
    let first := st1.frames.length
    ({ st1 with frames := st1.frames ++ entries },
      purged.2 ++ [.insertRows none first (first + incoming - 1)])

/-- The insertion tail of one addEntriesInPlace loop iteration: purge when at
the cap, append the entry as a new row, record it in the in-place index. -/
def addEntryInPlaceFresh (st0 : ModelState) (entry : TraceEntry) (key : Nat) :
    ModelState × List ModelEvent :=
  let purged :=
    if MAX_ROWS ≤ st0.frames.length then
      purgeOldestRows st0 (min PURGE_CHUNK st0.frames.length)
    else (st0, [])
  let st1 := purged.1
  let row := st1.frames.length
  ({ st1 with
      frames := st1.frames ++ [entry]
      inPlaceRows := mapInsert st1.inPlaceRows key row },
    purged.2 ++ [.insertRows none row row])

/-- One iteration of the entry loop of TraceModel::addEntriesInPlace: hit an
existing fingerprint row and update it in place, self-heal a stale index
entry, or insert a fresh row. -/
def addEntryInPlaceStep (st : ModelState) (entry : TraceEntry) :
    ModelState × List ModelEvent :=
  let key := makeEntryKey entry
  match mapFind st.inPlaceRows key with
  | some row =>
      if row < st.frames.length then updateInPlaceRow st row entry
      else
        addEntryInPlaceFresh
          { st with inPlaceRows := mapRemove st.inPlaceRows key } entry key
  | none => addEntryInPlaceFresh st entry key

/-- Embedding of TraceModel::addEntriesInPlace (the loop over the batch). -/
def addEntriesInPlace (st : ModelState) (entries : List TraceEntry) :
    ModelState × List ModelEvent :=
  if entries = [] then (st, [])
  else
    entries.foldl
      (fun acc entry =>
        let step := addEntryInPlaceStep acc.1 entry
        (step.1, acc.2 ++ step.2))
      (st, [])

/-- Embedding of TraceModel::addEntries (dispatch on the display mode). -/
def addEntries (st : ModelState) (entries : List TraceEntry) :
    ModelState × List ModelEvent :=
  if st.displayMode = .inPlace then addEntriesInPlace st entries
  else addEntriesAppend st entries

/-- Embedding of TraceModel::clear. -/
def modelClear (st : ModelState) : ModelState × List ModelEvent :=
  if st.frames = [] ∧ st.inPlaceRows = [] then (st, [])
  else ({ st with frames := [], inPlaceRows := [] }, [.modelReset])

/-- A sequence of addEntries calls, discarding the notifications. -/
def applyBatches (st : ModelState) (batches : List (List TraceEntry)) :
    ModelState :=
  batches.foldl (fun acc b => (addEntries acc b).1) st

/-- The empty model in a given display mode. -/
def emptyModel (mode : DisplayMode) : ModelState :=
  { frames := [], displayMode := mode, inPlaceRows := [] }

/-! ## Basic trace-model lemmas -/

theorem drop_min_length {α : Type} (l : List α) (c : Nat) :
    l.drop (min c l.length) = l.drop c := by
  rcases le_total c l.length with h | h
  · rw [min_eq_left h]
  · rw [min_eq_right h, List.drop_length, List.drop_eq_nil_of_le h]

theorem rebuildInPlaceIndex_frames (st : ModelState) :
    (rebuildInPlaceIndex st).frames = st.frames := by
  unfold rebuildInPlaceIndex
  split <;> rfl

theorem rebuildInPlaceIndex_mode (st : ModelState) :
    (rebuildInPlaceIndex st).displayMode = st.displayMode := by
  unfold rebuildInPlaceIndex
  split <;> rfl

theorem purgeOldestRows_frames (st : ModelState) (c : Nat) :
    (purgeOldestRows st c).1.frames = st.frames.drop c := by
  by_cases h : c = 0 ∨ st.frames = []
  · rcases h with h | h <;> simp [purgeOldestRows, h]
  · by_cases hm : st.displayMode = DisplayMode.inPlace
    · simp [purgeOldestRows, h, hm, rebuildInPlaceIndex_frames, drop_min_length]
    · simp [purgeOldestRows, h, hm, drop_min_length]

theorem purgeOldestRows_mode (st : ModelState) (c : Nat) :
    (purgeOldestRows st c).1.displayMode = st.displayMode := by
  by_cases h : c = 0 ∨ st.frames = []
  · simp [purgeOldestRows, h]
  · by_cases hm : st.displayMode = DisplayMode.inPlace
    · simp [purgeOldestRows, h, hm, rebuildInPlaceIndex_mode]
    · simp [purgeOldestRows, h, hm]

theorem addEntriesAppend_frames (st : ModelState) (b : List TraceEntry) :
    (addEntriesAppend st b).1.frames =
      (if b = [] then st.frames
       else if MAX_ROWS < st.frames.length + b.length then
         st.frames.drop
           (min (max (st.frames.length + b.length - MAX_ROWS) PURGE_CHUNK)
             st.frames.length) ++ b
       else st.frames ++ b) := by
  by_cases hb : b = []
  · simp [addEntriesAppend, hb]
  · by_cases hcap : MAX_ROWS < st.frames.length + b.length
    · simp [addEntriesAppend, hb, hcap, purgeOldestRows_frames]
    · simp [addEntriesAppend, hb, hcap]

theorem addEntriesAppend_mode (st : ModelState) (b : List TraceEntry) :
    (addEntriesAppend st b).1.displayMode = st.displayMode := by
  unfold addEntriesAppend
  by_cases hb : b = []
  · rw [if_pos hb]
  · rw [if_neg hb]
    dsimp only
    by_cases hcap : MAX_ROWS < st.frames.length + b.length
    · rw [if_pos hcap]
      exact purgeOldestRows_mode st _
    · rw [if_neg hcap]

theorem addEntriesAppend_length_le (st : ModelState) (b : List TraceEntry)
    (h1 : st.frames.length ≤ MAX_ROWS) (h2 : b.length ≤ MAX_ROWS) :
    (addEntriesAppend st b).1.frames.length ≤ MAX_ROWS := by
  rw [addEntriesAppend_frames]
  by_cases hb : b = []
  · rw [if_pos hb]; exact h1
  · rw [if_neg hb]
    by_cases hcap : MAX_ROWS < st.frames.length + b.length
    · rw [if_pos hcap]
      simp only [List.length_append, List.length_drop]
      simp only [MAX_ROWS, PURGE_CHUNK] at *
      omega
    · rw [if_neg hcap]
      simp only [List.length_append]
      omega

theorem updateInPlaceRow_frames_length (st : ModelState) (row : Nat)
    (entry : TraceEntry) :
    (updateInPlaceRow st row entry).1.frames.length = st.frames.length := by
  by_cases h : row < st.frames.length
  · simp [updateInPlaceRow, h]
  · simp [updateInPlaceRow, h]

theorem addEntryInPlaceFresh_length_le (st : ModelState) (entry : TraceEntry)
    (key : Nat) (h : st.frames.length ≤ MAX_ROWS) :
    (addEntryInPlaceFresh st entry key).1.frames.length ≤ MAX_ROWS := by
  by_cases hcap : MAX_ROWS ≤ st.frames.length
  · simp only [addEntryInPlaceFresh, if_pos hcap, purgeOldestRows_frames,
      List.length_append, List.length_drop, List.length_cons, List.length_nil]
    simp only [MAX_ROWS, PURGE_CHUNK] at *
    omega
  · simp only [addEntryInPlaceFresh, if_neg hcap, List.length_append,
      List.length_cons, List.length_nil]
    omega

theorem addEntryInPlaceStep_length_le (st : ModelState) (entry : TraceEntry)
    (h : st.frames.length ≤ MAX_ROWS) :
    (addEntryInPlaceStep st entry).1.frames.length ≤ MAX_ROWS := by
  unfold addEntryInPlaceStep
  dsimp only
  cases hf : mapFind st.inPlaceRows (makeEntryKey entry) with
  | some row =>
      dsimp only
      by_cases hrow : row < st.frames.length
      · rw [if_pos hrow, updateInPlaceRow_frames_length]
        exact h
      · rw [if_neg hrow]
        exact addEntryInPlaceFresh_length_le _ _ _ h
  | none =>
      dsimp only
      exact addEntryInPlaceFresh_length_le _ _ _ h

theorem inPlace_fold_length_le (es : List TraceEntry) :
    ∀ (st : ModelState) (ev : List ModelEvent),
      st.frames.length ≤ MAX_ROWS →
      ((es.foldl
          (fun acc entry =>
            let step := addEntryInPlaceStep acc.1 entry
            (step.1, acc.2 ++ step.2))
          (st, ev)).1).frames.length ≤ MAX_ROWS := by
  induction es with
  | nil => intro st ev h; exact h
  | cons e es ih =>
      intro st ev h
      simp only [List.foldl_cons]
      exact ih _ _ (addEntryInPlaceStep_length_le st e h)

theorem addEntriesInPlace_length_le (st : ModelState) (b : List TraceEntry)
    (h : st.frames.length ≤ MAX_ROWS) :
    (addEntriesInPlace st b).1.frames.length ≤ MAX_ROWS := by
  unfold addEntriesInPlace
  split
  · exact h
  · exact inPlace_fold_length_le b st [] h

theorem addEntries_length_le (st : ModelState) (b : List TraceEntry)
    (h1 : st.frames.length ≤ MAX_ROWS) (h2 : b.length ≤ MAX_ROWS) :
    (addEntries st b).1.frames.length ≤ MAX_ROWS := by
  unfold addEntries
  split
  · exact addEntriesInPlace_length_le st b h1
  · exact addEntriesAppend_length_le st b h1 h2

/-- C1 (amended): starting from the empty model, in either display mode, any
sequence of addEntries calls in which each individual batch holds at most
MAX_ROWS entries leaves the frame row count at or below MAX_ROWS after every
call. -/
theorem trace_row_cap (mode : DisplayMode) (bs : List (List TraceEntry))
    (hb : ∀ b ∈ bs, b.length ≤ MAX_ROWS) :
    (applyBatches (emptyModel mode) bs).frames.length ≤ MAX_ROWS := by
  have key : ∀ (bs : List (List TraceEntry)) (st : ModelState),
      (∀ b ∈ bs, b.length ≤ MAX_ROWS) →
      st.frames.length ≤ MAX_ROWS →
      (applyBatches st bs).frames.length ≤ MAX_ROWS := by
    intro bs
    induction bs with
    | nil => intro st _ h; exact h
    | cons b bs ih =>
        intro st hall h
        simp only [applyBatches, List.foldl_cons]
        exact ih _ (fun x hx => hall x (List.mem_cons_of_mem _ hx))
          (addEntries_length_le st b h (hall b (List.mem_cons_self _ _)))
  exact key bs (emptyModel mode) hb (by simp [emptyModel, MAX_ROWS])

/-- Witness for trace_row_cap: a single one-entry batch in append mode. -/
theorem trace_row_cap_witness :
    (∀ b ∈ [[({} : TraceEntry)]], b.length ≤ MAX_ROWS) ∧
      (applyBatches (emptyModel .append) [[({} : TraceEntry)]]).frames.length
        ≤ MAX_ROWS := by
  refine ⟨?_, trace_row_cap .append [[{}]] ?_⟩ <;>
    · intro b hb
      simp only [List.mem_singleton] at hb
      simp [hb, MAX_ROWS]

/-- Counterexample to C1 as stated: a single addEntries call with
MAX_ROWS + 1 entries in append mode overflows the cap, because the purge
count is clamped to the current (empty) row count. -/
theorem trace_row_cap_counterexample :
    ¬ (addEntries (emptyModel .append)
          (List.replicate (MAX_ROWS + 1) {})).1.frames.length ≤ MAX_ROWS := by
  have hne : List.replicate (MAX_ROWS + 1) ({} : TraceEntry) ≠ [] := by
    simp [List.replicate_succ]
  have hcap : MAX_ROWS < (emptyModel .append).frames.length +
      (List.replicate (MAX_ROWS + 1) ({} : TraceEntry)).length := by
    rw [List.length_replicate]
    show MAX_ROWS < 0 + (MAX_ROWS + 1)
    omega
  have hframes :
      (addEntries (emptyModel .append)
          (List.replicate (MAX_ROWS + 1) {})).1.frames.length
        = MAX_ROWS + 1 := by
    unfold addEntries
    rw [if_neg (by simp [emptyModel])]
    rw [addEntriesAppend_frames, if_neg hne, if_pos hcap]
    rw [List.length_append, List.length_replicate]
    show (List.drop _ ([] : List TraceEntry)).length + (MAX_ROWS + 1)
      = MAX_ROWS + 1
    rw [List.drop_nil]
    simp
  rw [hframes]
  exact Nat.not_succ_le_self _

/-! ## Append-mode eviction scenario (claim C3) -/

theorem addEntries_append_mode_eq (st : ModelState) (b : List TraceEntry)
    (h : st.displayMode = .append) : addEntries st b = addEntriesAppend st b := by
  unfold addEntries
  rw [h]
  simp

theorem addEntries_nil (st : ModelState) : addEntries st [] = (st, []) := by
  unfold addEntries addEntriesInPlace addEntriesAppend
  simp

theorem applyBatches_all_nil (bs : List (List TraceEntry))
    (h : ∀ x ∈ bs, x = []) : ∀ st : ModelState, applyBatches st bs = st := by
  induction bs with
  | nil => intro st; rfl
  | cons b bs ih =>
      intro st
      have hb : b = [] := h b (List.mem_cons_self _ _)
      simp only [applyBatches, List.foldl_cons, hb, addEntries_nil]
      exact ih (fun x hx => h x (List.mem_cons_of_mem _ hx)) st

theorem flatten_length_zero (bs : List (List TraceEntry))
    (h : (bs.flatten).length = 0) : ∀ x ∈ bs, x = [] := by
  induction bs with
  | nil => intro x hx; cases hx
  | cons b bs ih =>
      intro x hx
      rw [List.flatten_cons, List.length_append] at h
      rcases List.mem_cons.mp hx with hx | hx
      · subst hx
        exact List.eq_nil_of_length_eq_zero (by omega)
      · exact ih (by omega) x hx

theorem addEntriesAppend_no_purge (st : ModelState) (b : List TraceEntry)
    (h : st.frames.length + b.length ≤ MAX_ROWS) :
    (addEntriesAppend st b).1.frames = st.frames ++ b := by
  rw [addEntriesAppend_frames]
  by_cases hb : b = []
  · rw [if_pos hb, hb, List.append_nil]
  · rw [if_neg hb, if_neg (by omega)]

theorem addEntriesAppend_final (st : ModelState) (b : List TraceEntry)
    (hlen : st.frames.length ≤ MAX_ROWS)
    (hsum : st.frames.length + b.length = MAX_ROWS + 1)
    (hb : b.length ≤ MAX_ROWS - PURGE_CHUNK) :
    (addEntriesAppend st b).1.frames = (st.frames ++ b).drop PURGE_CHUNK := by
  have hbne : b ≠ [] := by
    intro hnil
    rw [hnil] at hsum
    simp at hsum
    omega
  rw [addEntriesAppend_frames, if_neg hbne, if_pos (by omega)]
  have h1 : min (max (st.frames.length + b.length - MAX_ROWS) PURGE_CHUNK)
      st.frames.length = PURGE_CHUNK := by
    simp only [MAX_ROWS, PURGE_CHUNK] at *
    omega
  have h2 : PURGE_CHUNK ≤ st.frames.length := by
    simp only [MAX_ROWS, PURGE_CHUNK] at *
    omega
  rw [h1, List.drop_append_of_le_length h2]

theorem applyBatches_eviction (bs : List (List TraceEntry)) :
    ∀ st : ModelState, st.displayMode = .append →
      (∀ b ∈ bs, b.length ≤ MAX_ROWS - PURGE_CHUNK) →
      st.frames.length + (bs.flatten).length = MAX_ROWS + 1 →
      st.frames.length ≤ MAX_ROWS →
      (applyBatches st bs).frames = (st.frames ++ bs.flatten).drop PURGE_CHUNK := by
  induction bs with
  | nil =>
      intro st _ _ hsum hlen
      simp only [List.flatten_nil, List.length_nil] at hsum
      exact absurd hsum (by omega)
  | cons b bs ih =>
      intro st hm hb hsum hlen
      rw [List.flatten_cons, List.length_append] at hsum
      simp only [applyBatches, List.foldl_cons]
      rw [addEntries_append_mode_eq st b hm]
      by_cases hc : st.frames.length + b.length ≤ MAX_ROWS
      · have hfr := addEntriesAppend_no_purge st b hc
        have hmode : (addEntriesAppend st b).1.displayMode = DisplayMode.append := by
          rw [addEntriesAppend_mode]; exact hm
        have hrec := ih (addEntriesAppend st b).1 hmode
          (fun x hx => hb x (List.mem_cons_of_mem _ hx))
          (by rw [hfr, List.length_append]; omega)
          (by rw [hfr, List.length_append]; omega)
        show (applyBatches (addEntriesAppend st b).1 bs).frames = _
        rw [hrec, hfr, List.flatten_cons, List.append_assoc]
      · have hjz : (bs.flatten).length = 0 := by omega
        have hsum2 : st.frames.length + b.length = MAX_ROWS + 1 := by omega
        have hfr := addEntriesAppend_final st b hlen hsum2
          (hb b (List.mem_cons_self _ _))
        show (applyBatches (addEntriesAppend st b).1 bs).frames = _
        rw [applyBatches_all_nil bs (flatten_length_zero bs hjz)]
        rw [hfr, List.flatten_cons,
          List.eq_nil_of_length_eq_zero hjz, List.append_nil]

/-- C3 (amended): in Append display mode, starting empty, inserting
MAX_ROWS + 1 frames through addEntries under any batching into batches of at
most MAX_ROWS - PURGE_CHUNK entries leaves the model with exactly
MAX_ROWS - PURGE_CHUNK + 1 rows (not MAX_ROWS), namely the full insertion
sequence with its first PURGE_CHUNK frames evicted, so the first remaining
row is the (1 + PURGE_CHUNK)-th inserted frame. -/
theorem trace_eviction_scenario (bs : List (List TraceEntry))
    (hb : ∀ b ∈ bs, b.length ≤ MAX_ROWS - PURGE_CHUNK)
    (hsum : (bs.flatten).length = MAX_ROWS + 1) :
    (applyBatches (emptyModel .append) bs).frames = bs.flatten.drop PURGE_CHUNK ∧
      (applyBatches (emptyModel .append) bs).frames.length
        = MAX_ROWS - PURGE_CHUNK + 1 ∧
      (applyBatches (emptyModel .append) bs).frames.head?
        = bs.flatten[PURGE_CHUNK]? := by
  have h0 : (emptyModel .append).frames.length = 0 := rfl
  have heq := applyBatches_eviction bs (emptyModel .append) rfl hb
    (by rw [h0, hsum]; omega) (by rw [h0]; exact Nat.zero_le _)
  have heq2 : (applyBatches (emptyModel .append) bs).frames
      = bs.flatten.drop PURGE_CHUNK := by
    rw [heq]
    rfl
  refine ⟨heq2, ?_, ?_⟩
  · rw [heq2, List.length_drop, hsum]
    decide
  · rw [heq2, List.head?_drop]

/-- Witness for trace_eviction_scenario: two batches of 50000 and 50001
entries. -/
theorem trace_eviction_scenario_witness :
    ((∀ b ∈ [List.replicate 50000 ({} : TraceEntry),
        List.replicate 50001 ({} : TraceEntry)], b.length ≤ MAX_ROWS - PURGE_CHUNK) ∧
      (([List.replicate 50000 ({} : TraceEntry),
          List.replicate 50001 ({} : TraceEntry)].flatten).length = MAX_ROWS + 1)) ∧
      (applyBatches (emptyModel .append)
          [List.replicate 50000 ({} : TraceEntry),
            List.replicate 50001 ({} : TraceEntry)]).frames
        = ([List.replicate 50000 ({} : TraceEntry),
            List.replicate 50001 ({} : TraceEntry)].flatten).drop PURGE_CHUNK := by
  have h1 : ∀ b ∈ [List.replicate 50000 ({} : TraceEntry),
      List.replicate 50001 ({} : TraceEntry)], b.length ≤ MAX_ROWS - PURGE_CHUNK := by
    intro b hbmem
    rcases List.mem_cons.mp hbmem with h | h
    · rw [h, List.length_replicate]
      decide
    · rcases List.mem_cons.mp h with h | h
      · rw [h, List.length_replicate]
        decide
      · cases h
  have h2 : (([List.replicate 50000 ({} : TraceEntry),
      List.replicate 50001 ({} : TraceEntry)].flatten).length = MAX_ROWS + 1) := by
    rw [List.flatten_cons, List.flatten_cons, List.flatten_nil,
      List.append_nil, List.length_append, List.length_replicate,
      List.length_replicate]
    decide
  exact ⟨⟨h1, h2⟩, (trace_eviction_scenario _ h1 h2).1⟩

/-- Counterexample to C3 as stated: delivering the MAX_ROWS + 1 frames as one
single batch is a legal batching, and it leaves MAX_ROWS + 1 rows in the
model, not MAX_ROWS. -/
theorem trace_eviction_scenario_counterexample :
    (applyBatches (emptyModel .append)
        [List.replicate (MAX_ROWS + 1) {}]).frames.length ≠ MAX_ROWS := by
  have hne : List.replicate (MAX_ROWS + 1) ({} : TraceEntry) ≠ [] := by
    simp [List.replicate_succ]
  have hcap : MAX_ROWS < (emptyModel .append).frames.length +
      (List.replicate (MAX_ROWS + 1) ({} : TraceEntry)).length := by
    rw [List.length_replicate]
    show MAX_ROWS < 0 + (MAX_ROWS + 1)
    omega
  have hframes :
      (applyBatches (emptyModel .append)
          [List.replicate (MAX_ROWS + 1) {}]).frames.length = MAX_ROWS + 1 := by
    show (addEntries (emptyModel .append)
        (List.replicate (MAX_ROWS + 1) {})).1.frames.length = MAX_ROWS + 1
    unfold addEntries
    rw [if_neg (by simp [emptyModel])]
    rw [addEntriesAppend_frames, if_neg hne, if_pos hcap]
    rw [List.length_append, List.length_replicate]
    show (List.drop _ ([] : List TraceEntry)).length + (MAX_ROWS + 1)
      = MAX_ROWS + 1
    rw [List.drop_nil]
    simp
  rw [hframes]
  omega

/-! ## Notification batching (claim C4) -/

/-- Recognizer for removal range notifications. -/
def ModelEvent.isRemoveNotif : ModelEvent → Bool
  | .removeRows _ _ _ => true
  | _ => false

/-- Recognizer for insertion range notifications. -/
def ModelEvent.isInsertNotif : ModelEvent → Bool
  | .insertRows _ _ _ => true
  | _ => false

theorem filter_remove_single_insert (p : Option Nat) (a c : Nat) :
    (List.filter (fun e => e.isRemoveNotif) [ModelEvent.insertRows p a c]).length
      = 0 := rfl

theorem filter_insert_single_insert (p : Option Nat) (a c : Nat) :
    (List.filter (fun e => e.isInsertNotif) [ModelEvent.insertRows p a c]).length
      = 1 := rfl

theorem purgeOldestRows_events (st : ModelState) (c : Nat) :
    ((purgeOldestRows st c).2.filter (fun e => e.isRemoveNotif)).length ≤ 1 ∧
      ((purgeOldestRows st c).2.filter (fun e => e.isInsertNotif)).length = 0 := by
  unfold purgeOldestRows
  by_cases h : c = 0 ∨ st.frames = []
  · rw [if_pos h]
    exact ⟨by simp, by simp⟩
  · rw [if_neg h]
    dsimp only
    exact ⟨by simp [ModelEvent.isRemoveNotif], by simp [ModelEvent.isInsertNotif]⟩

/-- C4 (amended): in Append display mode, a single addEntries call emits at
most one removal range notification and at most one insertion range
notification, regardless of the batch size.  (In in-place mode the loop emits
one insertion notification per newly seen fingerprint, see the
counterexample.) -/
theorem batched_notifications (st : ModelState) (b : List TraceEntry)
    (h : st.displayMode = .append) :
    ((addEntries st b).2.filter (fun e => e.isRemoveNotif)).length ≤ 1 ∧
      ((addEntries st b).2.filter (fun e => e.isInsertNotif)).length ≤ 1 := by
  rw [addEntries_append_mode_eq st b h]
  unfold addEntriesAppend
  by_cases hb : b = []
  · rw [if_pos hb]
    exact ⟨by simp, by simp⟩
  · rw [if_neg hb]
    dsimp only
    by_cases hcap : MAX_ROWS < st.frames.length + b.length
    · rw [if_pos hcap]
      obtain ⟨hr, hi⟩ := purgeOldestRows_events st
        (min (max (st.frames.length + b.length - MAX_ROWS) PURGE_CHUNK)
          st.frames.length)
      constructor
      · rw [List.filter_append, List.length_append, filter_remove_single_insert]
        omega
      · rw [List.filter_append, List.length_append, filter_insert_single_insert]
        omega
    · rw [if_neg hcap]
      dsimp only
      constructor
      · rw [List.nil_append, filter_remove_single_insert]
        omega
      · rw [List.nil_append, filter_insert_single_insert]

/-- Witness for batched_notifications: a two-entry batch in append mode. -/
theorem batched_notifications_witness :
    ({ frames := [], displayMode := .append, inPlaceRows := [] } :
        ModelState).displayMode = DisplayMode.append ∧
      (((addEntries { frames := [], displayMode := .append, inPlaceRows := [] }
          [{ msg := { id := 1 } }, { msg := { id := 2 } }]).2.filter
            (fun e => e.isRemoveNotif)).length ≤ 1 ∧
        ((addEntries { frames := [], displayMode := .append, inPlaceRows := [] }
          [{ msg := { id := 1 } }, { msg := { id := 2 } }]).2.filter
            (fun e => e.isInsertNotif)).length ≤ 1) :=
  ⟨rfl, batched_notifications _ _ rfl⟩

/-- Counterexample to C4 as stated: in in-place display mode a two-entry
batch with two distinct fingerprints emits two insertion range
notifications, one per entry. -/
theorem batched_notifications_counterexample :
    ¬ (((addEntries { frames := [], displayMode := .inPlace, inPlaceRows := [] }
        [{ msg := { id := 1 } }, { msg := { id := 2 } }]).2.filter
          (fun e => e.isInsertNotif)).length ≤ 1) := by
  decide

/-! ## Engine facade (src/app/AppController.cpp)

The engine-relevant state of AppController: connection flags, measurement
flags, the timers as active bits, the pending frame buffer, the per-second
frame counter and rate, and the owned trace model.  Driver calls (initialize,
detectChannels, openChannel) are external collaborators; connectChannels is
parameterized over their combined outcome.  The buildEntry decode step is
parameterized as a function so the transition structure is independent of the
DBC contents. -/

/-- External outcome of the driver calls made inside connectChannels. -/
inductive ConnectOutcome where
  | initFailed
  | noChannels
  | openFailed
  | opened
  deriving DecidableEq, Repr

/-- Engine-relevant state of AppController. -/
structure EngineState where
  connected : Bool := false
  measuring : Bool := false
  paused : Bool := false
  flushTimerActive : Bool := false
  rateTimerActive : Bool := false
  pending : List CANMessage := []
  framesSinceLastSec : Nat := 0
  frameRate : Nat := 0
  model : ModelState := {}
  deriving DecidableEq, Repr

/-- Embedding of AppController::stopMeasurement. -/
def stopMeasurement (st : EngineState) : EngineState :=
  if st.measuring then
    { st with
        flushTimerActive := false
        rateTimerActive := false
        pending := []
        measuring := false
        paused := false }
  else st

/-- Embedding of AppController::disconnectChannels: stop measuring first,
close the channel, drop the connected and paused flags. -/
def disconnectChannels (st : EngineState) : EngineState :=
  if st.connected then
    let st1 := if st.measuring then stopMeasurement st else st
    { st1 with connected := false, paused := false }
  else st

/-- Embedding of AppController::connectChannels.  When already connected the
C++ immediately delegates to disconnectChannels (toggle semantics);
otherwise driver initialization, channel detection and channel opening are
summarized by the ConnectOutcome, and only a fully successful open sets
m_connected. -/
def connectChannels (outcome : ConnectOutcome) (st : EngineState) :
    EngineState :=
  if st.connected then disconnectChannels st
  else
    match outcome with
    | .initFailed => st
    | .noChannels => st
    | .openFailed => st
    | .opened => { st with connected := true }

/-- Embedding of AppController::startMeasurement: toggle to stop when already
measuring, auto-connect when not connected, then begin measuring with a
cleared pending buffer and running timers. -/
def startMeasurement (outcome : ConnectOutcome) (st : EngineState) :
    EngineState :=
  if st.measuring then stopMeasurement st
  else
    let st1 := if st.connected then st else connectChannels outcome st
    if st1.connected then
      { st1 with
          measuring := true
          paused := false
          pending := []
          framesSinceLastSec := 0
          flushTimerActive := true
          rateTimerActive := true }
    else st1

/-- Embedding of AppController::flushPendingFrames: swap out the pending
buffer, build display rows and commit them in one addEntries call.  The
buildEntry decode is the parameter be. -/
def flushPendingFrames (be : CANMessage → TraceEntry) (st : EngineState) :
    EngineState :=
  if st.pending = [] then st
  else if st.paused then st
  else
    { st with
        pending := []
        model := (addEntries st.model (st.pending.map be)).1 }

/-- Embedding of AppController::pauseMeasurement: toggle the paused flag; on
resume flush the accumulated pending frames immediately. -/
def pauseMeasurement (be : CANMessage → TraceEntry) (st : EngineState) :
    EngineState :=
  if st.measuring then
    let st1 := { st with paused := !st.paused }
    if st1.paused then st1 else flushPendingFrames be st1
  else st

/-- Embedding of AppController::onFrameReceived (the driver receive
callback): frames are discarded when not measuring or when paused, TX echoes
are discarded, and everything else is appended to the pending buffer. -/
def onFrameReceived (st : EngineState) (msg : CANMessage) : EngineState :=
  if ¬ st.measuring ∨ st.paused then st
  else if msg.isTxConfirm then st
  else
    { st with
        pending := st.pending ++ [msg]
        framesSinceLastSec := st.framesSinceLastSec + 1 }

/-- Outcome of the file lookup and TraceImporter::load call inside
AppController::importTraceLog: the file may be missing, the importer may
report an error string (unsupported extension, parse failure, or zero frames
parsed), or it may produce the parsed frame list. -/
inductive ImportOutcome where
  | fileNotFound
  | loadFailed (err : String)
  | loaded (frames : List CANMessage)

/-- Embedding of AppController::importTraceLog: all failure paths return
false before the trace model is touched; on success measurement is stopped,
the pending buffer and rate are cleared, the model is cleared unless
appending, and the pre-built entry list is committed in one addEntries. -/
def importTraceLog (outcome : ImportOutcome) (append : Bool)
    (be : CANMessage → TraceEntry) (st : EngineState) : Bool × EngineState :=
  match outcome with
  | .fileNotFound => (false, st)
  | .loadFailed _ => (false, st)
  | .loaded frames =>
      if frames = [] then (false, st)
      else
        let st1 := if st.measuring then stopMeasurement st else st
        let st2 := { st1 with pending := [], framesSinceLastSec := 0, frameRate := 0 }
        let m0 := if append then st2.model else (modelClear st2.model).1
        let entries := frames.map be
        (true, { st2 with model := (addEntries m0 entries).1 })

/-! ## Facade transition properties (claims C5, C2, C9) -/

theorem stopMeasurement_model (st : EngineState) :
    (stopMeasurement st).model = st.model := by
  unfold stopMeasurement
  split <;> rfl

theorem measuring_guard_model (st : EngineState) :
    (if st.measuring then stopMeasurement st else st).model = st.model := by
  split
  · exact stopMeasurement_model st
  · rfl

/-- C5 (amended): stop when not measuring, disconnect when not connected and
pause-toggle when not measuring are no-ops, exactly as the claim states; but
connect when already connected performs a disconnect, start when already
measuring performs a stop, and pause-toggle while paused resumes and flushes
— those three transitions are toggles, not idempotent operations. -/
theorem facade_transition_idempotence (st : EngineState)
    (outcome : ConnectOutcome) (be : CANMessage → TraceEntry) :
    (st.measuring = false → stopMeasurement st = st) ∧
    (st.connected = false → disconnectChannels st = st) ∧
    (st.measuring = false → pauseMeasurement be st = st) ∧
    (st.connected = true → connectChannels outcome st = disconnectChannels st) ∧
    (st.measuring = true → startMeasurement outcome st = stopMeasurement st) ∧
    (st.measuring = true → st.paused = true →
      pauseMeasurement be st =
        flushPendingFrames be { st with paused := false }) := by
  refine ⟨?_, ?_, ?_, ?_, ?_, ?_⟩
  · intro h
    simp [stopMeasurement, h]
  · intro h
    simp [disconnectChannels, h]
  · intro h
    simp [pauseMeasurement, h]
  · intro h
    simp [connectChannels, h]
  · intro h
    simp [startMeasurement, h]
  · intro h1 h2
    simp [pauseMeasurement, h1, h2]

/-- Witness for facade_transition_idempotence: the disconnected idle engine
state. -/
theorem facade_transition_idempotence_witness :
    stopMeasurement {} = ({} : EngineState) ∧
      disconnectChannels {} = ({} : EngineState) :=
  ⟨(facade_transition_idempotence {} .opened (fun _ => {})).1 rfl,
    (facade_transition_idempotence {} .opened (fun _ => {})).2.1 rfl⟩

/-- Counterexample to C5 as stated: invoking connect while already connected
does not leave the state unchanged — it disconnects. -/
theorem facade_transition_idempotence_counterexample :
    connectChannels .opened { connected := true } ≠
      ({ connected := true } : EngineState) := by
  decide

/-- C2: evaluation of the receive callback at a measuring-and-paused state.
The embedded onFrameReceived drops the arriving non-TX frame (the state is
unchanged and the pending buffer stays empty), although the code comments in
flushPendingFrames and the pause status text say frames queue while paused. -/
theorem paused_receive_drop :
    (({ id := 256 } : CANMessage).isTxConfirm = false) ∧
      onFrameReceived
          { connected := true, measuring := true, paused := true,
            flushTimerActive := true, rateTimerActive := true }
          { id := 256 } =
        { connected := true, measuring := true, paused := true,
          flushTimerActive := true, rateTimerActive := true } ∧
      (onFrameReceived
          { connected := true, measuring := true, paused := true,
            flushTimerActive := true, rateTimerActive := true }
          { id := 256 }).pending = [] :=
  ⟨rfl, rfl, rfl⟩

/-- C9: importTraceLog is transactional — every failure outcome (missing
file, importer error covering unsupported extensions and parse failures, or
zero parsed frames) returns false with the engine state, in particular the
trace model, exactly unchanged; a successful import returns true and commits
the pre-built entry list in a single addEntries against the cleared model
(replace) or the existing model (append). -/
theorem import_transactional (outcome : ImportOutcome) (append : Bool)
    (be : CANMessage → TraceEntry) (st : EngineState) :
    ((outcome = .fileNotFound ∨ (∃ e, outcome = .loadFailed e) ∨
        outcome = .loaded []) →
      importTraceLog outcome append be st = (false, st)) ∧
    (∀ frames, outcome = .loaded frames → frames ≠ [] →
      (importTraceLog outcome append be st).1 = true ∧
      (importTraceLog outcome append be st).2.model =
        (addEntries (if append then st.model else (modelClear st.model).1)
          (frames.map be)).1) := by
  constructor
  · intro h
    rcases h with h | ⟨e, h⟩ | h <;> subst h <;> simp [importTraceLog]
  · intro frames h hne
    subst h
    refine ⟨by simp [importTraceLog, hne], ?_⟩
    simp only [importTraceLog, if_neg hne]
    by_cases hm : st.measuring <;> by_cases ha : append <;>
      simp [hm, ha, stopMeasurement_model, stopMeasurement, modelClear]

/-- Witness for import_transactional: a successful one-frame import in
replace mode. -/
theorem import_transactional_witness :
    (importTraceLog (.loaded [{}]) false (fun m => { msg := m }) {}).1 = true ∧
      (importTraceLog (.loaded [{}]) false (fun m => { msg := m }) {}).2.model =
        (addEntries
          (if false then ({} : EngineState).model
           else (modelClear ({} : EngineState).model).1)
          ([({} : CANMessage)].map (fun m => ({ msg := m } : TraceEntry)))).1 :=
  (import_transactional (.loaded [{}]) false (fun m => { msg := m }) {}).2
    [{}] rfl (by decide)

/-! ## BLF binary codec (src/trace/TraceImporter.cpp loadBlf,
src/trace/TraceExporter.cpp saveAsBLF)

A file is a list of byte values.  The little-endian QDataStream reads and
writes are explicit byte arithmetic; QFile::seek is positional indexing. -/

/-- Read one byte (a QDataStream uint8) at an index; out of range reads give
0, and values are reduced modulo 256 so the reader treats any list as a byte
string. -/
def getByte (bytes : List Nat) (i : Nat) : Nat :=
  bytes.getD i 0 % 256

/-- Little-endian uint16 read. -/
def readU16 (bytes : List Nat) (i : Nat) : Nat :=
  getByte bytes i + 256 * getByte bytes (i + 1)

/-- Little-endian uint32 read. -/
def readU32 (bytes : List Nat) (i : Nat) : Nat :=
  getByte bytes i + 256 * getByte bytes (i + 1) +
    65536 * getByte bytes (i + 2) + 16777216 * getByte bytes (i + 3)

/-- Little-endian uint64 read. -/
def readU64 (bytes : List Nat) (i : Nat) : Nat :=
  readU32 bytes i + 4294967296 * readU32 bytes (i + 4)

/-- Little-endian uint8 write. -/
def w8 (v : Nat) : List Nat := [v % 256]

/-- Little-endian uint16 write. -/
def w16 (v : Nat) : List Nat := [v % 256, v / 256 % 256]

/-- Little-endian uint32 write. -/
def w32 (v : Nat) : List Nat :=
  [v % 256, v / 256 % 256, v / 65536 % 256, v / 16777216 % 256]

/-- Little-endian uint64 write. -/
def w64 (v : Nat) : List Nat :=
  w32 (v % 4294967296) ++ w32 (v / 4294967296 % 4294967296)

/-- The ASCII bytes of the "BLF\x00" magic. -/
def blfMagic : List Nat := [66, 76, 70, 0]

/-- The ASCII bytes of the "LOBJ" record signature. -/
def lobjMagic : List Nat := [76, 79, 66, 74]

/-- One iteration of the LOBJ record loop of TraceImporter::loadBlf, with
explicit fuel (the loop advances by at least 24 bytes per record, so
bytes.length + 1 units of fuel never run out before the natural exit). -/
def blfLoop (bytes : List Nat) : Nat → Nat → List CANMessage →
    Except String (List CANMessage)
  | 0, _, acc => .ok acc
  | fuel + 1, pos, acc =>
      if pos + 24 ≤ bytes.length then
        if (bytes.drop pos).take 4 ≠ lobjMagic then
          .error "Unexpected BLF object signature"
        else
          let headerSize := readU16 bytes (pos + 4)
          let objectSize := readU32 bytes (pos + 8)
          let objectType := readU32 bytes (pos + 12)
          let ts10ns := readU64 bytes (pos + 16)
          if headerSize < 24 ∨ objectSize < headerSize then
            .error "Invalid BLF object size"
          else if bytes.length < pos + objectSize then
            .error "Truncated BLF object"
          else
            let base := pos + headerSize
            let payloadSize := objectSize - headerSize
            if objectType = 1 ∧ 16 ≤ payloadSize then
              let flags := getByte bytes (base + 7)
              let msg : CANMessage :=
                { id := readU32 bytes base % 2 ^ 29
                  channel := max 1 (min (readU16 bytes (base + 4)) 255)
                  dlc := min (getByte bytes (base + 6)) 8
                  isExtended := Nat.testBit flags 2
                  isTxConfirm := Nat.testBit flags 4
                  timestamp := ts10ns * 10
                  data :=
                    (List.range 8).map (fun i => getByte bytes (base + 8 + i)) ++
                      List.replicate 56 0 }
              blfLoop bytes fuel (pos + objectSize) (acc ++ [msg])
            else if objectType = 86 ∧ 76 ≤ payloadSize then
              let flags := getByte bytes (base + 7)
              let msg : CANMessage :=
                { id := readU32 bytes base % 2 ^ 29
                  channel := max 1 (min (readU16 bytes (base + 4)) 255)
                  dlc := min (getByte bytes (base + 6)) 15
                  isFD := true
                  isBRS := Nat.testBit flags 0
                  isExtended := Nat.testBit flags 2
                  isTxConfirm := Nat.testBit flags 4
                  timestamp := ts10ns * 10
                  data :=
                    (List.range 64).map (fun i => getByte bytes (base + 12 + i)) }
              blfLoop bytes fuel (pos + objectSize) (acc ++ [msg])
            else
              blfLoop bytes fuel (pos + objectSize) acc
      else .ok acc

/-- Embedding of TraceImporter::loadBlf.  The statistics-size upper bound
compares the quint32 statsSize against the file length cast to quint32,
exactly as the C++ static_cast does. -/
def loadBlf (bytes : List Nat) : Except String (List CANMessage) :=
  if bytes.take 4 ≠ blfMagic then .error "Invalid BLF header"
  else if bytes.length < 12 then .error "Failed to read BLF header"
  else
    let statsSize := readU32 bytes 4
    if statsSize < 24 ∨ bytes.length % 2 ^ 32 < statsSize then
      .error "Invalid BLF statistics block size"
    else
      match blfLoop bytes (bytes.length + 1) statsSize [] with
      | .error e => .error e
      | .ok msgs =>
          if msgs = [] then .error "No CAN frames found in BLF file"
          else .ok msgs

/-- A Win32 SYSTEMTIME value, the eight uint16 fields the BLF statistics
block stores for the measurement start and end (derived from QDateTime in
the C++; an input parameter here). -/
structure SystemTime where
  year : Nat := 0
  month : Nat := 0
  dayOfWeek : Nat := 0
  day : Nat := 0
  hour : Nat := 0
  minute : Nat := 0
  second : Nat := 0
  msec : Nat := 0
  deriving DecidableEq, Repr

/-- The writeSystemTime lambda of TraceExporter::saveAsBLF. -/
def writeSystemTime (t : SystemTime) : List Nat :=
  w16 t.year ++ w16 t.month ++ w16 t.dayOfWeek ++ w16 t.day ++
    w16 t.hour ++ w16 t.minute ++ w16 t.second ++ w16 t.msec

/-- TraceExporter constants. -/
def BLF_STATS_SIZE : Nat := 144
def BLF_API_VERSION : Nat := 1027
def BLF_OBJ_HEADER_SIZE : Nat := 24
def BLF_CAN_MSG_PAYLOAD : Nat := 16
def BLF_CANFD_MSG_PAYLOAD : Nat := 76

/-- Embedding of TraceExporter::writeBlfObjectHeader. -/
def writeBlfObjectHeader (objectType payloadBytes ts10ns : Nat) : List Nat :=
  lobjMagic ++ w16 BLF_OBJ_HEADER_SIZE ++ w16 1 ++
    w32 (BLF_OBJ_HEADER_SIZE + payloadBytes) ++ w32 objectType ++ w64 ts10ns

/-- The LOBJ record the BLF writer emits for one non-error non-remote
frame. -/
def blfRecord (msg : CANMessage) : List Nat :=
  if msg.isFD then
    let flags := (if msg.isBRS then 1 else 0) + (if msg.isExtended then 4 else 0) +
      (if msg.isTxConfirm then 16 else 0)
    let dataLen := msg.dataLength
    writeBlfObjectHeader 86 BLF_CANFD_MSG_PAYLOAD (msg.timestamp / 10) ++
      w32 msg.id ++ w16 msg.channel ++ w8 msg.dlc ++ w8 flags ++ w32 0 ++
      (List.range dataLen).map (fun i => msg.data.getD i 0 % 256) ++
      List.replicate (64 - dataLen) 0
  else
    let flags := (if msg.isExtended then 4 else 0) +
      (if msg.isTxConfirm then 16 else 0)
    let dataLen := min msg.dlc 8
    writeBlfObjectHeader 1 BLF_CAN_MSG_PAYLOAD (msg.timestamp / 10) ++
      w32 msg.id ++ w16 msg.channel ++ w8 msg.dlc ++ w8 flags ++
      (List.range dataLen).map (fun i => msg.data.getD i 0 % 256) ++
      List.replicate (8 - dataLen) 0

/-- The frames the BLF writer keeps: error and remote frames are skipped. -/
def blfKeep (e : TraceEntry) : Bool :=
  ¬ (e.msg.isError ∨ e.msg.isRemote)

/-- In-place overwrite of a byte range, the model of QFile::seek followed by
QDataStream writes. -/
def patchBytes (dst : List Nat) (offset : Nat) (src : List Nat) : List Nat :=
  dst.take offset ++ src ++ dst.drop (offset + src.length)

/-- The 144-byte statistics block as first written (object count, last
object timestamp and end time still placeholders; the end-time slot is
pre-filled with the start time, as in the C++). -/
def blfHeaderBytes (startT : SystemTime) : List Nat :=
  blfMagic ++ w32 BLF_STATS_SIZE ++ w32 BLF_API_VERSION ++
    w32 0 ++ w32 0 ++ w32 0 ++ w64 0 ++ w64 0 ++
    writeSystemTime startT ++ writeSystemTime startT ++ List.replicate 72 0

/-- Embedding of TraceExporter::saveAsBLF: statistics block, the record loop
over the kept frames, then the three back-patches (object counts at offset
12, last object timestamp at offset 32, end SYSTEMTIME at offset 56). -/
def saveAsBLF (startT endT : SystemTime) (frames : List TraceEntry) :
    List Nat :=
  let kept := frames.filter blfKeep
  let body := blfHeaderBytes startT ++ (kept.map (fun e => blfRecord e.msg)).flatten
  let objectCount := kept.length
  let lastTs10ns := kept.foldl (fun _ e => e.msg.timestamp / 10) 0
  let body1 := patchBytes body 12 (w32 objectCount ++ w32 objectCount)
  let body2 := patchBytes body1 32 (w64 lastTs10ns)
  patchBytes body2 56 (writeSystemTime endT)

/-! ## BLF reader properties (claims C7, C10) -/

/-- A concrete 64-byte BLF file whose statistics block size field is exactly
24, followed by one classic CAN LOBJ record (id 0x100, channel 1, dlc 8,
payload 01..08, timestamp 0). -/
def blfStats24File : List Nat :=
  blfMagic ++ w32 24 ++ w32 BLF_API_VERSION ++ w32 0 ++ w32 0 ++ w32 0 ++
    writeBlfObjectHeader 1 16 0 ++ w32 256 ++ w16 1 ++ w8 8 ++ w8 0 ++
    [1, 2, 3, 4, 5, 6, 7, 8]

/-- C7 (amended): the BLF reader fails for every input whose first 4 bytes
are not BLF\x00, and for every input whose statistics block size is outside
the closed interval [24, file-length] (the code accepts exactly 24, which
the claim's half-open interval excluded); and every well-formed LOBJ record
whose object type is neither 1 nor 86 is skipped by jumping object-size
bytes forward, not aborted on. -/
theorem blf_reject_and_skip :
    (∀ bytes : List Nat, bytes.take 4 ≠ blfMagic →
      loadBlf bytes = .error "Invalid BLF header") ∧
    (∀ bytes : List Nat, bytes.take 4 = blfMagic → 12 ≤ bytes.length →
      readU32 bytes 4 < 24 ∨ bytes.length % 2 ^ 32 < readU32 bytes 4 →
      loadBlf bytes = .error "Invalid BLF statistics block size") ∧
    (∀ (bytes : List Nat) (fuel pos : Nat) (acc : List CANMessage),
      pos + 24 ≤ bytes.length →
      (bytes.drop pos).take 4 = lobjMagic →
      24 ≤ readU16 bytes (pos + 4) →
      readU16 bytes (pos + 4) ≤ readU32 bytes (pos + 8) →
      pos + readU32 bytes (pos + 8) ≤ bytes.length →
      readU32 bytes (pos + 12) ≠ 1 →
      readU32 bytes (pos + 12) ≠ 86 →
      blfLoop bytes (fuel + 1) pos acc =
        blfLoop bytes fuel (pos + readU32 bytes (pos + 8)) acc) := by
  refine ⟨?_, ?_, ?_⟩
  · intro bytes h
    unfold loadBlf
    rw [if_pos h]
  · intro bytes hmagic hlen hout
    unfold loadBlf
    rw [if_neg (by simp [hmagic]), if_neg (by omega)]
    dsimp only
    rw [if_pos hout]
  · intro bytes fuel pos acc h1 h2 h3 h4 h5 h6 h7
    simp only [blfLoop]
    rw [if_pos h1, if_neg (by simp [h2]), if_neg (by omega), if_neg (by omega),
      if_neg (by simp [h6]), if_neg (by simp [h7])]

/-- Witness for blf_reject_and_skip: a file starting with four zero bytes is
rejected as an invalid BLF header. -/
theorem blf_reject_and_skip_witness :
    ([0, 0, 0, 0] : List Nat).take 4 ≠ blfMagic ∧
      loadBlf [0, 0, 0, 0] = .error "Invalid BLF header" :=
  ⟨by decide, (blf_reject_and_skip).1 [0, 0, 0, 0] (by decide)⟩

/-- Counterexample to C7 as stated: the statistics block size 24 lies outside
the claimed half-open interval (24, file-length], so the claim demands a
failure, but the reader parses this concrete file successfully. -/
theorem blf_reject_and_skip_counterexample :
    readU32 blfStats24File 4 = 24 ∧
      loadBlf blfStats24File =
        .ok [{ id := 256, channel := 1, dlc := 8, timestamp := 0,
               data := [1, 2, 3, 4, 5, 6, 7, 8] ++ List.replicate 56 0 }] :=
  ⟨rfl, rfl⟩

/-! ## Byte-level read/write lemmas for the BLF round trip -/

theorem getByte_drop (l : List Nat) (pos i : Nat) :
    getByte (l.drop pos) i = getByte l (pos + i) := by
  unfold getByte
  unfold List.getD
  rw [List.get?_eq_getElem?, List.get?_eq_getElem?, List.getElem?_drop]

theorem getByte_append_left (l1 l2 : List Nat) (i : Nat) (h : i < l1.length) :
    getByte (l1 ++ l2) i = getByte l1 i := by
  unfold getByte
  rw [List.getD_append _ _ _ _ h]

theorem getByte_append_right (l1 l2 : List Nat) (i : Nat)
    (h : l1.length ≤ i) :
    getByte (l1 ++ l2) i = getByte l2 (i - l1.length) := by
  unfold getByte
  rw [List.getD_append_right _ _ _ _ h]

theorem w16_length (v : Nat) : (w16 v).length = 2 := rfl
theorem w32_length (v : Nat) : (w32 v).length = 4 := rfl
theorem w64_length (v : Nat) : (w64 v).length = 8 := rfl

theorem readU16_w16 (v : Nat) (rest : List Nat) :
    readU16 (w16 v ++ rest) 0 = v % 65536 := by
  unfold readU16 w16 getByte
  simp
  omega

theorem readU32_w32 (v : Nat) (rest : List Nat) :
    readU32 (w32 v ++ rest) 0 = v % 4294967296 := by
  unfold readU32 w32 getByte
  simp
  omega

theorem getByte_append_shift (l1 l2 : List Nat) (i : Nat) :
    getByte (l1 ++ l2) (l1.length + i) = getByte l2 i := by
  rw [getByte_append_right _ _ _ (Nat.le_add_right _ _), Nat.add_sub_cancel_left]

theorem readU16_shift (l1 l2 : List Nat) (i : Nat) :
    readU16 (l1 ++ l2) (l1.length + i) = readU16 l2 i := by
  unfold readU16
  rw [getByte_append_shift, show l1.length + i + 1 = l1.length + (i + 1) by omega,
    getByte_append_shift]

theorem readU32_shift (l1 l2 : List Nat) (i : Nat) :
    readU32 (l1 ++ l2) (l1.length + i) = readU32 l2 i := by
  unfold readU32
  rw [getByte_append_shift, show l1.length + i + 1 = l1.length + (i + 1) by omega,
    show l1.length + i + 2 = l1.length + (i + 2) by omega,
    show l1.length + i + 3 = l1.length + (i + 3) by omega,
    getByte_append_shift, getByte_append_shift, getByte_append_shift]

theorem readU64_shift (l1 l2 : List Nat) (i : Nat) :
    readU64 (l1 ++ l2) (l1.length + i) = readU64 l2 i := by
  unfold readU64
  rw [readU32_shift, show l1.length + i + 4 = l1.length + (i + 4) by omega,
    readU32_shift]

theorem readU64_w64 (v : Nat) (rest : List Nat)
    (h : v < 18446744073709551616) :
    readU64 (w64 v ++ rest) 0 = v := by
  unfold readU64
  rw [show w64 v ++ rest
      = w32 (v % 4294967296) ++ (w32 (v / 4294967296 % 4294967296) ++ rest) by
    rw [w64, List.append_assoc]]
  rw [readU32_w32,
    show (0 : Nat) + 4 = (w32 (v % 4294967296)).length + 0 from rfl,
    readU32_shift, readU32_w32]
  omega

theorem readU16_drop (l : List Nat) (pos i : Nat) :
    readU16 (l.drop pos) i = readU16 l (pos + i) := by
  unfold readU16
  rw [getByte_drop, show pos + i + 1 = pos + (i + 1) by omega, getByte_drop]

theorem readU32_drop (l : List Nat) (pos i : Nat) :
    readU32 (l.drop pos) i = readU32 l (pos + i) := by
  unfold readU32
  rw [getByte_drop, show pos + i + 1 = pos + (i + 1) by omega,
    show pos + i + 2 = pos + (i + 2) by omega,
    show pos + i + 3 = pos + (i + 3) by omega,
    getByte_drop, getByte_drop, getByte_drop]

theorem readU64_drop (l : List Nat) (pos i : Nat) :
    readU64 (l.drop pos) i = readU64 l (pos + i) := by
  unfold readU64
  rw [readU32_drop, show pos + i + 4 = pos + (i + 4) by omega, readU32_drop]

theorem getD_map_range (f : Nat → Nat) (n i : Nat) (h : i < n) :
    ((List.range n).map f).getD i 0 = f i := by
  unfold List.getD
  rw [List.get?_eq_getElem?, List.getElem?_map, List.getElem?_range h]
  rfl

theorem getD_lt_of_mem_lt (data : List Nat) (i : Nat)
    (hb : ∀ b ∈ data, b < 256) : data.getD i 0 < 256 := by
  by_cases h : i < data.length
  · refine hb _ ?_
    unfold List.getD
    rw [List.get?_eq_getElem?, List.getElem?_eq_getElem h]
    exact List.getElem_mem h
  · unfold List.getD
    rw [List.get?_eq_getElem?, List.getElem?_eq_none (by omega)]
    norm_num

/-- The frames for which the amended round-trip claim is stated: not error
and not remote, ids inside the 29-bit space and inside the 11-bit space when
standard, channel in [1,255], classic DLC at most 8 and BRS only on FD
frames, FD DLC at most 15, a full 64-byte buffer of byte values that is zero
beyond the DLC-implied length, and a timestamp that is a whole number of
microseconds below 2^50 nanoseconds.

The 2^50 bound delimits where the exact integer model of the ASC timestamp
column coincides with the program's IEEE-double path.  Writing computes
double(ns)/1e9 and prints it with six decimals: for ns < 2^50 the conversion
is exact (far below 2^53) and the division is off by at most half an ulp of
a value at most about 2^20 seconds, under 0.12 ns, so the correctly rounded
six-decimal print shows exactly the whole-microsecond mark.  Reading parses
the seconds string (at most 13 significant digits, hence correctly rounded)
and computes qRound64(value * 1e9): the parse contributes at most
0.5e9 * ulp(2^20 s) < 0.12 ns and the multiplication at most
0.5 * ulp(2^50) = 0.0625 ns, a total well under the 0.5 ns rounding radius,
so qRound64 recovers the timestamp exactly and stays far from the qint64
overflow.  Above this domain the double path can perturb the timestamp (the
ulp of double(ns) passes 1 ns at 2^52 and half a microsecond near 2^61, and
qRound64 overflows for products beyond 2^63), so no exactness is claimed
there. -/
def representable (m : CANMessage) : Prop :=
  m.isError = false ∧ m.isRemote = false ∧
    m.id < 2 ^ 29 ∧ (m.isExtended = false → m.id < 2 ^ 11) ∧
    1 ≤ m.channel ∧ m.channel ≤ 255 ∧
    (m.isFD = false → m.dlc ≤ 8 ∧ m.isBRS = false) ∧
    (m.isFD = true → m.dlc ≤ 15) ∧
    m.data.length = 64 ∧
    (∀ i, m.dataLength ≤ i → m.data.getD i 0 = 0) ∧
    (∀ b ∈ m.data, b < 256) ∧
    m.timestamp % 1000 = 0 ∧ m.timestamp < 2 ^ 50

theorem data_reconstruct (data : List Nat) (cut n : Nat)
    (hlen : data.length = 64) (hn : n ≤ 64) (hcut : cut ≤ n)
    (hpad : ∀ i, cut ≤ i → data.getD i 0 = 0) :
    (List.range n).map (fun i => data.getD i 0) ++
        List.replicate (64 - n) 0 = data := by
  apply List.ext_getElem
  · simp [hlen]
    omega
  · intro i h1 h2
    rw [hlen] at h2
    by_cases hi : i < n
    · rw [List.getElem_append_left (by simp; omega)]
      rw [List.getElem_map, List.getElem_range]
      unfold List.getD
      rw [List.get?_eq_getElem?, List.getElem?_eq_getElem (by omega)]
      rfl
    · rw [List.getElem_append_right (by simp; omega)]
      rw [List.getElem_replicate]
      have := hpad i (by omega)
      unfold List.getD at this
      rw [List.get?_eq_getElem?, List.getElem?_eq_getElem (by omega)] at this
      exact (Option.getD_some ▸ this).symm

theorem dlcToLength_le (d : Nat) : dlcToLength d ≤ 64 := by
  unfold dlcToLength
  split
  · rename_i h
    interval_cases d <;> decide
  · omega

theorem blfRecord_classic_length (m : CANMessage) (hfd : m.isFD = false) :
    (blfRecord m).length = 40 := by
  simp [blfRecord, hfd, writeBlfObjectHeader, lobjMagic, w8, w16, w32, w64,
    BLF_OBJ_HEADER_SIZE, BLF_CAN_MSG_PAYLOAD]

theorem blfRecord_fd_length (m : CANMessage) (hfd : m.isFD = true) :
    (blfRecord m).length = 100 := by
  have hle : m.dataLength ≤ 64 := by
    unfold CANMessage.dataLength
    rw [hfd]
    simp [dlcToLength_le]
  simp [blfRecord, hfd, writeBlfObjectHeader, lobjMagic, w8, w16, w32, w64,
    BLF_OBJ_HEADER_SIZE, BLF_CANFD_MSG_PAYLOAD]
  omega

theorem blfRecord_take4 (m : CANMessage) (rest : List Nat) :
    ((blfRecord m) ++ rest).take 4 = lobjMagic := by
  by_cases hfd : m.isFD <;>
    simp [blfRecord, hfd, writeBlfObjectHeader, lobjMagic, w8, w16, w32, w64]

theorem classic_reads (file : List Nat) (pos : Nat) (m : CANMessage)
    (rest : List Nat) (hfd : m.isFD = false)
    (hdrop : file.drop pos = blfRecord m ++ rest)
    (hts : m.timestamp < 2 ^ 64) (hid : m.id < 2 ^ 29)
    (hch : m.channel ≤ 255) (hdlc : m.dlc ≤ 8) :
    readU16 file (pos + 4) = 24 ∧
      readU32 file (pos + 8) = 40 ∧
      readU32 file (pos + 12) = 1 ∧
      readU64 file (pos + 16) = m.timestamp / 10 ∧
      readU32 file (pos + 24) = m.id ∧
      readU16 file (pos + 28) = m.channel ∧
      getByte file (pos + 30) = m.dlc := by
  refine ⟨?_, ?_, ?_, ?_, ?_, ?_, ?_⟩
  · rw [← readU16_drop, hdrop]
    simp [blfRecord, hfd, writeBlfObjectHeader, lobjMagic, w8, w16, w32, w64,
      readU16, getByte, BLF_OBJ_HEADER_SIZE, BLF_CAN_MSG_PAYLOAD]
  · rw [← readU32_drop, hdrop]
    simp [blfRecord, hfd, writeBlfObjectHeader, lobjMagic, w8, w16, w32, w64,
      readU32, getByte, BLF_OBJ_HEADER_SIZE, BLF_CAN_MSG_PAYLOAD]
  · rw [← readU32_drop, hdrop]
    simp [blfRecord, hfd, writeBlfObjectHeader, lobjMagic, w8, w16, w32, w64,
      readU32, getByte, BLF_OBJ_HEADER_SIZE, BLF_CAN_MSG_PAYLOAD]
  · rw [← readU64_drop, hdrop]
    simp [blfRecord, hfd, writeBlfObjectHeader, lobjMagic, w8, w16, w32, w64,
      readU64, readU32, getByte, BLF_OBJ_HEADER_SIZE, BLF_CAN_MSG_PAYLOAD]
    omega
  · rw [← readU32_drop, hdrop]
    simp [blfRecord, hfd, writeBlfObjectHeader, lobjMagic, w8, w16, w32, w64,
      readU32, getByte, BLF_OBJ_HEADER_SIZE, BLF_CAN_MSG_PAYLOAD]
    omega
  · rw [← readU16_drop, hdrop]
    simp [blfRecord, hfd, writeBlfObjectHeader, lobjMagic, w8, w16, w32, w64,
      readU16, getByte, BLF_OBJ_HEADER_SIZE, BLF_CAN_MSG_PAYLOAD]
    omega
  · rw [← getByte_drop, hdrop]
    simp [blfRecord, hfd, writeBlfObjectHeader, lobjMagic, w8, w16, w32, w64,
      getByte, BLF_OBJ_HEADER_SIZE, BLF_CAN_MSG_PAYLOAD]
    omega

theorem getD_replicate_zero (n k : Nat) :
    (List.replicate n (0 : Nat)).getD k 0 = 0 := by
  unfold List.getD
  rw [List.get?_eq_getElem?]
  by_cases h : k < n
  · rw [List.getElem?_eq_getElem (by simp [h])]
    simp
  · rw [List.getElem?_eq_none (by simp; omega)]
    rfl

theorem classic_flags_read (file : List Nat) (pos : Nat) (m : CANMessage)
    (rest : List Nat) (hfd : m.isFD = false)
    (hdrop : file.drop pos = blfRecord m ++ rest) :
    getByte file (pos + 31) =
      ((if m.isExtended then 4 else 0) +
        (if m.isTxConfirm then 16 else 0)) % 256 := by
  rw [← getByte_drop, hdrop]
  simp [blfRecord, hfd, writeBlfObjectHeader, lobjMagic, w8, w16, w32, w64,
    getByte, BLF_OBJ_HEADER_SIZE, BLF_CAN_MSG_PAYLOAD]

theorem classic_data_read (file : List Nat) (pos : Nat) (m : CANMessage)
    (rest : List Nat) (i : Nat) (hi : i < 8) (hfd : m.isFD = false)
    (hdrop : file.drop pos = blfRecord m ++ rest)
    (hpad : ∀ j, m.dataLength ≤ j → m.data.getD j 0 = 0)
    (hbytes : ∀ b ∈ m.data, b < 256) :
    getByte file (pos + (32 + i)) = m.data.getD i 0 := by
  rw [← getByte_drop, hdrop]
  have hsplit : blfRecord m ++ rest =
      (lobjMagic ++ w16 BLF_OBJ_HEADER_SIZE ++ w16 1 ++
        w32 (BLF_OBJ_HEADER_SIZE + BLF_CAN_MSG_PAYLOAD) ++ w32 1 ++
        w64 (m.timestamp / 10) ++ w32 m.id ++ w16 m.channel ++ w8 m.dlc ++
        w8 ((if m.isExtended then 4 else 0) + (if m.isTxConfirm then 16 else 0))) ++
      (((List.range (min m.dlc 8)).map (fun j => m.data.getD j 0 % 256) ++
        List.replicate (8 - min m.dlc 8) 0) ++ rest) := by
    simp [blfRecord, hfd, writeBlfObjectHeader, List.append_assoc]
  rw [hsplit]
  have hplen : (lobjMagic ++ w16 BLF_OBJ_HEADER_SIZE ++ w16 1 ++
      w32 (BLF_OBJ_HEADER_SIZE + BLF_CAN_MSG_PAYLOAD) ++ w32 1 ++
      w64 (m.timestamp / 10) ++ w32 m.id ++ w16 m.channel ++ w8 m.dlc ++
      w8 ((if m.isExtended then 4 else 0) +
        (if m.isTxConfirm then 16 else 0))).length = 32 := by
    simp [lobjMagic, w8, w16, w32, w64]
  rw [show 32 + i = 32 + i from rfl, ← hplen, getByte_append_shift]
  have hcut : m.dataLength = min m.dlc 8 := by
    unfold CANMessage.dataLength
    rw [hfd]
    simp
  by_cases hlt : i < min m.dlc 8
  · rw [getByte_append_left _ _ _ (by simp [List.length_append]; omega)]
    rw [getByte_append_left _ _ _ (by simp; omega)]
    unfold getByte
    rw [getD_map_range _ _ _ hlt]
    have := getD_lt_of_mem_lt m.data i hbytes
    omega
  · rw [List.append_assoc]
    rw [getByte_append_right _ _ _ (by simp; omega)]
    rw [getByte_append_left _ _ _ (by simp; omega)]
    unfold getByte
    rw [getD_replicate_zero]
    rw [hpad i (by omega)]

theorem fd_reads (file : List Nat) (pos : Nat) (m : CANMessage)
    (rest : List Nat) (hfd : m.isFD = true)
    (hdrop : file.drop pos = blfRecord m ++ rest)
    (hts : m.timestamp < 2 ^ 64) (hid : m.id < 2 ^ 29)
    (hch : m.channel ≤ 255) (hdlc : m.dlc ≤ 15) :
    readU16 file (pos + 4) = 24 ∧
      readU32 file (pos + 8) = 100 ∧
      readU32 file (pos + 12) = 86 ∧
      readU64 file (pos + 16) = m.timestamp / 10 ∧
      readU32 file (pos + 24) = m.id ∧
      readU16 file (pos + 28) = m.channel ∧
      getByte file (pos + 30) = m.dlc := by
  refine ⟨?_, ?_, ?_, ?_, ?_, ?_, ?_⟩
  · rw [← readU16_drop, hdrop]
    simp [blfRecord, hfd, writeBlfObjectHeader, lobjMagic, w8, w16, w32, w64,
      readU16, getByte, BLF_OBJ_HEADER_SIZE, BLF_CANFD_MSG_PAYLOAD]
  · rw [← readU32_drop, hdrop]
    simp [blfRecord, hfd, writeBlfObjectHeader, lobjMagic, w8, w16, w32, w64,
      readU32, getByte, BLF_OBJ_HEADER_SIZE, BLF_CANFD_MSG_PAYLOAD]
  · rw [← readU32_drop, hdrop]
    simp [blfRecord, hfd, writeBlfObjectHeader, lobjMagic, w8, w16, w32, w64,
      readU32, getByte, BLF_OBJ_HEADER_SIZE, BLF_CANFD_MSG_PAYLOAD]
  · rw [← readU64_drop, hdrop]
    simp [blfRecord, hfd, writeBlfObjectHeader, lobjMagic, w8, w16, w32, w64,
      readU64, readU32, getByte, BLF_OBJ_HEADER_SIZE, BLF_CANFD_MSG_PAYLOAD]
    omega
  · rw [← readU32_drop, hdrop]
    simp [blfRecord, hfd, writeBlfObjectHeader, lobjMagic, w8, w16, w32, w64,
      readU32, getByte, BLF_OBJ_HEADER_SIZE, BLF_CANFD_MSG_PAYLOAD]
    omega
  · rw [← readU16_drop, hdrop]
    simp [blfRecord, hfd, writeBlfObjectHeader, lobjMagic, w8, w16, w32, w64,
      readU16, getByte, BLF_OBJ_HEADER_SIZE, BLF_CANFD_MSG_PAYLOAD]
    omega
  · rw [← getByte_drop, hdrop]
    simp [blfRecord, hfd, writeBlfObjectHeader, lobjMagic, w8, w16, w32, w64,
      getByte, BLF_OBJ_HEADER_SIZE, BLF_CANFD_MSG_PAYLOAD]
    omega

theorem fd_flags_read (file : List Nat) (pos : Nat) (m : CANMessage)
    (rest : List Nat) (hfd : m.isFD = true)
    (hdrop : file.drop pos = blfRecord m ++ rest) :
    getByte file (pos + 31) =
      ((if m.isBRS then 1 else 0) + (if m.isExtended then 4 else 0) +
        (if m.isTxConfirm then 16 else 0)) % 256 := by
  rw [← getByte_drop, hdrop]
  simp [blfRecord, hfd, writeBlfObjectHeader, lobjMagic, w8, w16, w32, w64,
    getByte, BLF_OBJ_HEADER_SIZE, BLF_CANFD_MSG_PAYLOAD]

theorem fd_data_read (file : List Nat) (pos : Nat) (m : CANMessage)
    (rest : List Nat) (i : Nat) (hi : i < 64) (hfd : m.isFD = true)
    (hdrop : file.drop pos = blfRecord m ++ rest)
    (hpad : ∀ j, m.dataLength ≤ j → m.data.getD j 0 = 0)
    (hbytes : ∀ b ∈ m.data, b < 256) :
    getByte file (pos + (36 + i)) = m.data.getD i 0 := by
  rw [← getByte_drop, hdrop]
  have hsplit : blfRecord m ++ rest =
      (lobjMagic ++ w16 BLF_OBJ_HEADER_SIZE ++ w16 1 ++
        w32 (BLF_OBJ_HEADER_SIZE + BLF_CANFD_MSG_PAYLOAD) ++ w32 86 ++
        w64 (m.timestamp / 10) ++ w32 m.id ++ w16 m.channel ++ w8 m.dlc ++
        w8 ((if m.isBRS then 1 else 0) + (if m.isExtended then 4 else 0) +
          (if m.isTxConfirm then 16 else 0)) ++ w32 0) ++
      (((List.range m.dataLength).map (fun j => m.data.getD j 0 % 256) ++
        List.replicate (64 - m.dataLength) 0) ++ rest) := by
    simp [blfRecord, hfd, writeBlfObjectHeader, List.append_assoc]
  rw [hsplit]
  have hplen : (lobjMagic ++ w16 BLF_OBJ_HEADER_SIZE ++ w16 1 ++
      w32 (BLF_OBJ_HEADER_SIZE + BLF_CANFD_MSG_PAYLOAD) ++ w32 86 ++
      w64 (m.timestamp / 10) ++ w32 m.id ++ w16 m.channel ++ w8 m.dlc ++
      w8 ((if m.isBRS then 1 else 0) + (if m.isExtended then 4 else 0) +
        (if m.isTxConfirm then 16 else 0)) ++ w32 0).length = 36 := by
    simp [lobjMagic, w8, w16, w32, w64]
  rw [← hplen, getByte_append_shift]
  have hle : m.dataLength ≤ 64 := by
    unfold CANMessage.dataLength
    rw [hfd]
    simp [dlcToLength_le]
  by_cases hlt : i < m.dataLength
  · rw [getByte_append_left _ _ _ (by simp; omega)]
    rw [getByte_append_left _ _ _ (by simp; omega)]
    unfold getByte
    rw [getD_map_range _ _ _ hlt]
    have := getD_lt_of_mem_lt m.data i hbytes
    omega
  · rw [List.append_assoc]
    rw [getByte_append_right _ _ _ (by simp; omega)]
    rw [getByte_append_left _ _ _ (by simp; omega)]
    unfold getByte
    rw [getD_replicate_zero]
    rw [hpad i (by omega)]

theorem flags_testBit_classic (e t : Bool) :
    Nat.testBit (((if e then 4 else 0) + (if t then 16 else 0)) % 256) 2 = e ∧
      Nat.testBit (((if e then 4 else 0) + (if t then 16 else 0)) % 256) 4 = t := by
  cases e <;> cases t <;> exact ⟨by decide, by decide⟩

theorem flags_testBit_fd (b e t : Bool) :
    Nat.testBit (((if b then 1 else 0) + (if e then 4 else 0) +
        (if t then 16 else 0)) % 256) 0 = b ∧
      Nat.testBit (((if b then 1 else 0) + (if e then 4 else 0) +
        (if t then 16 else 0)) % 256) 2 = e ∧
      Nat.testBit (((if b then 1 else 0) + (if e then 4 else 0) +
        (if t then 16 else 0)) % 256) 4 = t := by
  cases b <;> cases e <;> cases t <;> exact ⟨by decide, by decide, by decide⟩

theorem blfLoop_roundtrip (file : List Nat) :
    ∀ (ms : List CANMessage) (pos : Nat) (acc : List CANMessage) (fuel : Nat),
      ms.length + 1 ≤ fuel →
      (∀ m ∈ ms, representable m) →
      file.drop pos = (ms.map blfRecord).flatten →
      blfLoop file fuel pos acc = .ok (acc ++ ms) := by
  intro ms
  induction ms with
  | nil =>
      intro pos acc fuel hfuel _ hdrop
      cases fuel with
      | zero => omega
      | succ f =>
          have hlen : file.length - pos = 0 := by
            have h2 := congrArg List.length hdrop
            simpa [List.length_drop] using h2
          simp only [blfLoop]
          rw [if_neg (by omega)]
          simp
  | cons m ms ih =>
      intro pos acc fuel hfuel hrep hdrop
      obtain ⟨herr, hrem, hid, hstd, hch1, hch2, hcl, hfd15, hdlen, hpad,
        hbytes, hts1000, hts50⟩ := hrep m (List.mem_cons_self _ _)
      have hts64 : m.timestamp < 2 ^ 64 := lt_trans hts50 (by norm_num)
      have hrep2 : ∀ x ∈ ms, representable x :=
        fun x hx => hrep x (List.mem_cons_of_mem _ hx)
      rw [List.map_cons, List.flatten_cons] at hdrop
      cases fuel with
      | zero => exact absurd hfuel (by simp)
      | succ f =>
          have hfuel2 : ms.length + 1 ≤ f := by
            simp only [List.length_cons] at hfuel
            omega
          by_cases hfd : m.isFD = true
          · -- CAN-FD record
            have hrecl := blfRecord_fd_length m hfd
            have hlen : file.length - pos =
                100 + ((ms.map blfRecord).flatten).length := by
              have h2 := congrArg List.length hdrop
              simpa [List.length_drop, hrecl] using h2
            obtain ⟨r4, r8, r12, r16, r24, r28, r30⟩ :=
              fd_reads file pos m _ hfd hdrop hts64 hid hch2 (hfd15 hfd)
            have r31 := fd_flags_read file pos m _ hfd hdrop
            have hdata : (List.range 64).map
                (fun i => getByte file (pos + 24 + 12 + i)) = m.data := by
              apply List.ext_getElem
              · simp [hdlen]
              · intro i h1 h2
                simp only [List.getElem_map, List.getElem_range]
                rw [show pos + 24 + 12 + i = pos + (36 + i) by omega]
                rw [fd_data_read file pos m _ i (by simpa using h1) hfd hdrop
                  hpad hbytes]
                unfold List.getD
                rw [List.get?_eq_getElem?,
                  List.getElem?_eq_getElem (by exact h2)]
                rfl
            have hdroprec : file.drop (pos + 100) = (ms.map blfRecord).flatten := by
              rw [show pos + 100 = pos + 100 from rfl, ← List.drop_drop]
              rw [hdrop, ← hrecl, List.drop_left]
            simp only [blfLoop]
            rw [if_pos (by omega)]
            rw [if_neg (by simp [hdrop, blfRecord_take4])]
            rw [r4, r8, r12, r16]
            rw [if_neg (by omega)]
            rw [if_neg (by omega)]
            rw [if_neg (by norm_num)]
            rw [if_pos (by norm_num)]
            rw [show pos + 24 + 4 = pos + 28 by omega, r28]
            rw [show pos + 24 + 6 = pos + 30 by omega, r30]
            rw [show pos + 24 + 7 = pos + 31 by omega, r31]
            rw [r24, hdata]
            obtain ⟨hb0, hb2, hb4⟩ :=
              flags_testBit_fd m.isBRS m.isExtended m.isTxConfirm
            rw [hb0, hb2, hb4]
            have hmsg : ({ id := m.id % 2 ^ 29,
                           channel := max 1 (min m.channel 255),
                           dlc := min m.dlc 15,
                           isFD := true, isBRS := m.isBRS,
                           isExtended := m.isExtended,
                           isTxConfirm := m.isTxConfirm,
                           timestamp := m.timestamp / 10 * 10,
                           data := m.data } : CANMessage) = m := by
              obtain ⟨mid, mdata, mdlc, mext, mfd, mbrs, mrem, merr, mtx,
                mch, mts⟩ := m
              simp only at herr hrem hid hch1 hch2 hfd15 hts1000 hts64 hfd
              subst herr hrem hfd
              have h15 := hfd15 rfl
              simp only [CANMessage.mk.injEq, and_true, true_and,
                eq_self_iff_true]
              omega
            rw [hmsg]
            rw [ih (pos + 100) (acc ++ [m]) f hfuel2 hrep2 hdroprec]
            simp
          · -- classic CAN record
            simp only [Bool.not_eq_true] at hfd
            have hrecl := blfRecord_classic_length m hfd
            have hlen : file.length - pos =
                40 + ((ms.map blfRecord).flatten).length := by
              have h2 := congrArg List.length hdrop
              simpa [List.length_drop, hrecl] using h2
            obtain ⟨r4, r8, r12, r16, r24, r28, r30⟩ :=
              classic_reads file pos m _ hfd hdrop hts64 hid hch2 (hcl hfd).1
            have r31 := classic_flags_read file pos m _ hfd hdrop
            have hdata : (List.range 8).map
                (fun i => getByte file (pos + 24 + 8 + i)) ++
                  List.replicate 56 0 = m.data := by
              have hmid : (List.range 8).map
                  (fun i => getByte file (pos + 24 + 8 + i)) =
                    (List.range 8).map (fun i => m.data.getD i 0) := by
                apply List.ext_getElem
                · simp
                · intro i h1 h2
                  simp only [List.getElem_map, List.getElem_range]
                  rw [show pos + 24 + 8 + i = pos + (32 + i) by omega]
                  exact classic_data_read file pos m _ i (by simpa using h1)
                    hfd hdrop hpad hbytes
              rw [hmid]
              have hscut : m.dataLength = min m.dlc 8 := by
                unfold CANMessage.dataLength
                rw [hfd]
                simp
              have := data_reconstruct m.data (min m.dlc 8) 8 hdlen (by omega)
                (by omega) (by rw [← hscut]; exact hpad)
              simpa using this
            have hdroprec : file.drop (pos + 40) = (ms.map blfRecord).flatten := by
              rw [← List.drop_drop, hdrop, ← hrecl, List.drop_left]
            simp only [blfLoop]
            rw [if_pos (by omega)]
            rw [if_neg (by simp [hdrop, blfRecord_take4])]
            rw [r4, r8, r12, r16]
            rw [if_neg (by omega)]
            rw [if_neg (by omega)]
            rw [if_pos (by norm_num)]
            rw [show pos + 24 + 4 = pos + 28 by omega, r28]
            rw [show pos + 24 + 6 = pos + 30 by omega, r30]
            rw [show pos + 24 + 7 = pos + 31 by omega, r31]
            rw [r24, hdata]
            obtain ⟨hb2, hb4⟩ := flags_testBit_classic m.isExtended m.isTxConfirm
            rw [hb2, hb4]
            have hmsg : ({ id := m.id % 2 ^ 29,
                           channel := max 1 (min m.channel 255),
                           dlc := min m.dlc 8,
                           isExtended := m.isExtended,
                           isTxConfirm := m.isTxConfirm,
                           timestamp := m.timestamp / 10 * 10,
                           data := m.data } : CANMessage) = m := by
              obtain ⟨mid, mdata, mdlc, mext, mfd, mbrs, mrem, merr, mtx,
                mch, mts⟩ := m
              simp only at herr hrem hid hch1 hch2 hcl hts1000 hts64 hfd
              subst herr hrem hfd
              have h8 := (hcl rfl).1
              have hbrs := (hcl rfl).2
              subst hbrs
              simp only [CANMessage.mk.injEq, and_true, true_and,
                eq_self_iff_true]
              omega
            rw [hmsg]
            rw [ih (pos + 40) (acc ++ [m]) f hfuel2 hrep2 hdroprec]
            simp

theorem blfRecord_length_ge (m : CANMessage) : 40 ≤ (blfRecord m).length := by
  by_cases hfd : m.isFD = true
  · rw [blfRecord_fd_length m hfd]
    omega
  · rw [blfRecord_classic_length m (by simpa using hfd)]

theorem flatten_records_ge (ms : List CANMessage) :
    ms.length ≤ ((ms.map blfRecord).flatten).length := by
  induction ms with
  | nil => simp
  | cons m ms ih =>
      rw [List.map_cons, List.flatten_cons, List.length_append,
        List.length_cons]
      have := blfRecord_length_ge m
      omega

theorem saveAsBLF_eq (s e : SystemTime) (frames : List TraceEntry) :
    saveAsBLF s e frames =
      (blfMagic ++ w32 144 ++ w32 1027 ++
        w32 (frames.filter blfKeep).length ++
        w32 (frames.filter blfKeep).length ++
        w32 0 ++ w64 0 ++
        w64 ((frames.filter blfKeep).foldl
          (fun _ x => x.msg.timestamp / 10) 0) ++
        writeSystemTime s ++ writeSystemTime e ++ List.replicate 72 0) ++
      ((frames.filter blfKeep).map (fun x => blfRecord x.msg)).flatten := by
  simp [saveAsBLF, blfHeaderBytes, patchBytes, blfMagic, w16, w32, w64,
    writeSystemTime, BLF_STATS_SIZE, BLF_API_VERSION, List.append_assoc]

/-- The BLF half of the round trip: writing any nonempty list of
representable frames with saveAsBLF and re-reading it with loadBlf yields
exactly the original messages.  The file-length bound reflects the reader's
cast of the file size to a 32-bit quantity. -/
theorem blf_roundtrip (s e : SystemTime) (entries : List TraceEntry)
    (hne : entries ≠ [])
    (hrep : ∀ x ∈ entries, representable x.msg)
    (hlen : (saveAsBLF s e entries).length < 2 ^ 32) :
    loadBlf (saveAsBLF s e entries) = .ok (entries.map (fun x => x.msg)) := by
  have hkeep : entries.filter blfKeep = entries := by
    rw [List.filter_eq_self]
    intro x hx
    obtain ⟨he, hr, _⟩ := hrep x hx
    simp [blfKeep, he, hr]
  have hmm : entries.map (fun x => blfRecord x.msg) =
      (entries.map (fun x => x.msg)).map blfRecord := by
    rw [List.map_map]
    rfl
  rw [saveAsBLF_eq, hkeep] at hlen ⊢
  rw [hmm] at hlen ⊢
  set ms := entries.map (fun x => x.msg) with hms
  set hdr := blfMagic ++ w32 144 ++ w32 1027 ++
    w32 entries.length ++ w32 entries.length ++ w32 0 ++ w64 0 ++
    w64 (entries.foldl (fun _ x => x.msg.timestamp / 10) 0) ++
    writeSystemTime s ++ writeSystemTime e ++ List.replicate 72 0 with hhdr
  have hhlen : hdr.length = 144 := by
    rw [hhdr]
    simp [blfMagic, w16, w32, w64, writeSystemTime]
  have hflen : (hdr ++ (ms.map blfRecord).flatten).length =
      144 + ((ms.map blfRecord).flatten).length := by
    rw [List.length_append, hhlen]
  have htake : (hdr ++ (ms.map blfRecord).flatten).take 4 = blfMagic := by
    rw [hhdr]
    simp [blfMagic, w16, w32, w64, writeSystemTime, List.append_assoc]
  have hstats : readU32 (hdr ++ (ms.map blfRecord).flatten) 4 = 144 := by
    rw [hhdr]
    simp [blfMagic, w16, w32, w64, writeSystemTime, readU32, getByte,
      List.append_assoc]
  have hdrop : (hdr ++ (ms.map blfRecord).flatten).drop 144 =
      (ms.map blfRecord).flatten := by
    rw [← hhlen, List.drop_left]
  have hmsne : ms ≠ [] := by
    rw [hms]
    intro hcon
    exact hne (List.map_eq_nil_iff.mp hcon)
  have hmsrep : ∀ m ∈ ms, representable m := by
    intro m hm
    rw [hms] at hm
    obtain ⟨x, hx, hxm⟩ := List.mem_map.mp hm
    rw [← hxm]
    exact hrep x hx
  have hcount : ms.length + 1 ≤ (hdr ++ (ms.map blfRecord).flatten).length + 1 := by
    have h1 := flatten_records_ge ms
    rw [hflen]
    omega
  unfold loadBlf
  rw [if_neg (by rw [htake]; simp)]
  rw [if_neg (by rw [hflen]; omega)]
  rw [hstats]
  rw [if_neg (by rw [hflen] at hlen ⊢; omega)]
  rw [blfLoop_roundtrip (hdr ++ (ms.map blfRecord).flatten) ms 144 [] _
    hcount hmsrep hdrop]
  simp [hmsne]

/-! ## ASC text codec (src/trace/TraceExporter.cpp saveAsAsc,
src/trace/TraceImporter.cpp loadAsc)

A file is a list of lines, each line a list of characters (the QTextStream
newline framing is the line structure).  QString number formatting and
parsing are explicit character arithmetic; the \s+ regular expression split
is the tokenizer below.  The C++ double timestamp path (double(ns)/1e9
printed with six decimals on write, toDouble then qRound64(value*1e9) on
read) is modelled with exact integer arithmetic: writing renders ns/1e9
rounded to six decimals, reading parses the decimal exactly and rounds
value*1e9 to the nearest integer.  The integer model agrees with the double
path only while the accumulated floating-point error stays below the print
and rounding radii — the round-trip claim therefore restricts timestamps to
whole microseconds below 2^50 ns (see the representable predicate for the
error budget); at larger magnitudes the double path perturbs the timestamp
and eventually overflows qRound64, and nothing is claimed about it here. -/

/-- Whitespace as matched by the reader's \s+ split for the characters the
codec produces. -/
def isWsChar (c : Char) : Bool := c = ' ' ∨ c = '\t'

/-- The tokenizer core: accumulate the current token (reversed) and split at
whitespace runs, dropping empty parts. -/
def tokAux : List Char → List Char → List (List Char)
  | [], acc => if acc = [] then [] else [acc.reverse]
  | c :: cs, acc =>
      if isWsChar c then
        if acc = [] then tokAux cs [] else acc.reverse :: tokAux cs []
      else tokAux cs (c :: acc)

/-- QString::split(\s+, SkipEmptyParts) over a line. -/
def tokenize (l : List Char) : List (List Char) := tokAux l []

/-- QString::trimmed. -/
def trimChars (l : List Char) : List Char :=
  ((l.dropWhile isWsChar).reverse.dropWhile isWsChar).reverse

/-- The digit characters QString::number produces (lowercase hex). -/
def digitToChar (d : Nat) : Char :=
  if d < 10 then Char.ofNat (48 + d) else Char.ofNat (87 + d)

/-- QString::toUpper on one character. -/
def charToUpper (c : Char) : Char :=
  if 97 ≤ c.toNat ∧ c.toNat ≤ 122 then Char.ofNat (c.toNat - 32) else c

/-- QString::toLower on one character. -/
def charToLower (c : Char) : Char :=
  if 65 ≤ c.toNat ∧ c.toNat ≤ 90 then Char.ofNat (c.toNat + 32) else c

/-- QString::number(n, base) for base 10 or 16 (lowercase). -/
def natToChars (base n : Nat) : List Char :=
  if n = 0 then [digitToChar 0] else ((Nat.digits base n).map digitToChar).reverse

/-- QString::rightJustified — pads at the front, never truncates. -/
def rightJustified (l : List Char) (width : Nat) (fill : Char) : List Char :=
  List.replicate (width - l.length) fill ++ l

/-- Hex digit value of a character (both cases), none for non-hex. -/
def hexVal (c : Char) : Option Nat :=
  if 48 ≤ c.toNat ∧ c.toNat ≤ 57 then some (c.toNat - 48)
  else if 97 ≤ c.toNat ∧ c.toNat ≤ 102 then some (c.toNat - 87)
  else if 65 ≤ c.toNat ∧ c.toNat ≤ 70 then some (c.toNat - 55)
  else none

/-- Decimal digit value of a character. -/
def decVal (c : Char) : Option Nat :=
  if 48 ≤ c.toNat ∧ c.toNat ≤ 57 then some (c.toNat - 48) else none

/-- Positional number parse (the Qt toUInt / toULongLong core): fails on an
empty string or any non-digit.  Signs and overflow are outside the writer's
output alphabet and parse as failures here. -/
def parseNat (digVal : Char → Option Nat) (base : Nat) (cs : List Char) :
    Option Nat :=
  if cs = [] then none
  else
    cs.foldl
      (fun acc c =>
        match acc, digVal c with
        | some a, some d => some (a * base + d)
        | _, _ => none)
      (some 0)

/-- Exact integer model of token.toDouble followed by
qRound64(value * 1e9): parse an optional-fraction decimal and round the
nanosecond value to nearest.  The C++ computes this through doubles, which
matches the model only while the parse and multiply round-off stays below
half a nanosecond (guaranteed for values below 2^50 ns, the domain of the
round-trip claim); on longer seconds strings the double parse loses
precision and beyond 2^63 the qRound64 product overflows, and the model is
not claimed to match there. -/
def parseDoubleNs (cs : List Char) : Option Nat :=
  let ip := cs.takeWhile (fun c => ¬ c = '.')
  let rest := cs.dropWhile (fun c => ¬ c = '.')
  let fp := match rest with | [] => ([] : List Char) | _ :: t => t
  if fp.contains '.' then none
  else if ip = [] ∧ fp = [] then none
  else
    match (if ip = [] then some 0 else parseNat decVal 10 ip),
        (if fp = [] then some 0 else parseNat decVal 10 fp) with
    | some i, some f =>
        some (i * 10 ^ 9 + (f * 10 ^ 9 + 10 ^ fp.length / 2) / 10 ^ fp.length)
    | _, _ => none

/-- Embedding of the anonymous-namespace parseChannelToken of
TraceImporter.cpp. -/
def parseChannelToken (tok : List Char) : Option Nat :=
  let digits := tok.filter (fun c => c.isDigit)
  match parseNat decVal 10 digits with
  | none => none
  | some n => if n = 0 ∨ 255 < n then none else some n

/-- List-prefix test by comparison of the leading segment. -/
def leadSeg (pre l : List Char) : Bool := l.take pre.length = pre

/-- Embedding of parseCanIdToken of TraceImporter.cpp (the token is already
whitespace-free after tokenizing). -/
def parseCanIdToken (tok : List Char) : Option (Nat × Bool) :=
  if tok = [] then none
  else
    let ext1 := tok.getLast? = some 'x' ∨ tok.getLast? = some 'X'
    let tok1 := if ext1 then tok.dropLast else tok
    let tok2 :=
      if tok1.getLast? = some 'h' ∨ tok1.getLast? = some 'H' then tok1.dropLast
      else tok1
    let tok3 :=
      if leadSeg ['0', 'x'] tok2 ∨ leadSeg ['0', 'X'] tok2 then tok2.drop 2
      else tok2
    match parseNat hexVal 16 tok3 with
    | none => none
    | some id =>
        if 536870911 < id then none
        else some (id, ext1 ∨ 2047 < id)

/-- Embedding of parseByteToken of TraceImporter.cpp. -/
def parseByteToken (tok : List Char) : Option Nat :=
  let tok1 :=
    if leadSeg ['0', 'x'] tok ∨ leadSeg ['0', 'X'] tok then tok.drop 2 else tok
  match parseNat hexVal 16 tok1 with
  | none => none
  | some v => if 255 < v then none else some v

/-- Embedding of parseDlcToken of TraceImporter.cpp: try base 10, fall back
to base 16; FD keeps codes up to 15 and converts larger byte counts through
lengthToDlc, classic clamps into [0,8]. -/
def parseDlcToken (tok : List Char) (isFd : Bool) : Option Nat :=
  let v? :=
    match parseNat decVal 10 tok with
    | some v => some v
    | none => parseNat hexVal 16 tok
  match v? with
  | none => none
  | some v =>
      if isFd then
        if v ≤ 15 then some v else some (lengthToDlc (v : Int))
      else some (min v 8)

/-- Characters of a string literal. -/
def strChars (s : String) : List Char := s.data

/-- Embedding of isAscMetadataLine of TraceImporter.cpp (applied to the
trimmed line). -/
def isAscMetadataLine (l : List Char) : Bool :=
  let lower := l.map charToLower
  leadSeg ['/', '/'] l ∨
    leadSeg ['d', 'a', 't', 'e', ' '] lower ∨
    leadSeg ['b', 'a', 's', 'e', ' '] lower ∨
    leadSeg ['n', 'o', ' ', 'i', 'n', 't', 'e', 'r', 'n', 'a', 'l', ' ',
      'e', 'v', 'e', 'n', 't', 's'] lower ∨
    lower = strChars "begin triggerblock" ∨
    lower = strChars "end triggerblock" ∨
    lower = strChars "begin trigger block" ∨
    lower = strChars "end trigger block"

/-- The FD byte-reading loop of loadAsc: consume tokens while they parse as
hex bytes. -/
def takeBytes : List (List Char) → List Nat
  | [] => []
  | t :: ts =>
      match parseByteToken t with
      | none => []
      | some v => v :: takeBytes ts

/-- The classic byte-reading loop of loadAsc: consume tokens while they
parse as hex bytes, stopping at the expected count. -/
def takeBytesUpTo : Nat → List (List Char) → List Nat
  | 0, _ => []
  | _ + 1, [] => []
  | n + 1, t :: ts =>
      match parseByteToken t with
      | none => []
      | some v => v :: takeBytesUpTo n ts

/-- One iteration of the line loop of TraceImporter::loadAsc: parse a line
into a frame, or skip it (blank, metadata, or malformed — the C++ continue
paths). -/
def parseAscLine (rawLine : List Char) : Option CANMessage :=
  let line := trimChars rawLine
  if line = [] ∨ isAscMetadataLine line then none
  else
    let tokens := tokenize line
    if tokens.length < 5 then none
    else
      match parseDoubleNs (tokens.getD 0 []) with
      | none => none
      | some ts =>
          let channel :=
            match parseChannelToken (tokens.getD 1 []) with
            | some c => c
            | none => 1
          match parseCanIdToken (tokens.getD 2 []) with
          | none => none
          | some idExt =>
              let dirToken := (tokens.getD 3 []).map charToLower
              if ¬ (dirToken = strChars "rx" ∨ dirToken = strChars "tx") then
                none
              else
                let typeToken := (tokens.getD 4 []).map charToLower
                let base : CANMessage :=
                  { id := idExt.1, channel := channel,
                    isExtended := idExt.2,
                    isTxConfirm := dirToken = strChars "tx",
                    timestamp := ts }
                if typeToken = strChars "errorframe" ∨
                    typeToken = strChars "error" then
                  some { base with isError := true }
                else if typeToken = strChars "r" then
                  if 5 < tokens.length then
                    match parseDlcToken (tokens.getD 5 []) false with
                    | none => none
                    | some dlc => some { base with isRemote := true, dlc := dlc }
                  else none
                else if typeToken = strChars "canfd" ∨
                    typeToken = strChars "fd" then
                  if 5 < tokens.length then
                    match parseDlcToken (tokens.getD 5 []) true with
                    | none => none
                    | some dlc0 =>
                        let bytes := takeBytes (tokens.drop 6)
                        let dlc1 :=
                          if 0 < bytes.length ∧
                              ¬ bytes.length = dlcToLength dlc0 then
                            lengthToDlc ((min bytes.length 64 : Nat) : Int)
                          else dlc0
                        let rem := (tokens.drop 6).drop bytes.length
                        some { base with
                                isFD := true
                                dlc := dlc1
                                isBRS := rem.any
                                  (fun t => t.map charToUpper = strChars "BRS")
                                data := (bytes.take 64) ++
                                  List.replicate (64 - min bytes.length 64) 0 }
                  else none
                else if ¬ typeToken = strChars "d" then none
                else
                  if 5 < tokens.length then
                    match parseDlcToken (tokens.getD 5 []) false with
                    | none => none
                    | some dlc0 =>
                        let expected := min dlc0 8
                        let bytes := takeBytesUpTo expected (tokens.drop 6)
                        let dlc1 :=
                          if ¬ bytes.length = expected then bytes.length
                          else dlc0
                        some { base with
                                dlc := dlc1
                                data := bytes ++
                                  List.replicate (64 - bytes.length) 0 }
                  else none

/-- Embedding of TraceImporter::loadAsc over the line list. -/
def loadAsc (lines : List (List Char)) : Except String (List CANMessage) :=
  let msgs := lines.filterMap parseAscLine
  if msgs = [] then .error "No CAN frames found in ASC file" else .ok msgs

/-- One data byte as the writer renders it: two uppercase hex digits. -/
def byteHexTok (b : Nat) : List Char :=
  rightJustified ((natToChars 16 b).map charToUpper) 2 '0'

/-- Space-separated join, translated from the dataHex loop of saveAsAsc
(a space before every byte except the first). -/
def sepSpace : List (List Char) → List Char
  | [] => []
  | [b] => b
  | b :: bs => b ++ ' ' :: sepSpace bs

/-- The space-separated hex dump of the payload (saveAsAsc data string). -/
def ascDataHex (m : CANMessage) : List Char :=
  sepSpace ((List.range m.dataLength).map (fun i => byteHexTok (m.data.getD i 0)))

/-- The id column of saveAsAsc: 3 uppercase hex digits for standard ids,
8 uppercase hex digits and a trailing x for extended ids. -/
def ascIdChars (m : CANMessage) : List Char :=
  if m.isExtended then
    rightJustified ((natToChars 16 m.id).map charToUpper) 8 '0' ++ ['x']
  else
    rightJustified ((natToChars 16 m.id).map charToUpper) 3 '0'

/-- The timestamp column body: seconds with six decimals — exact integer
model of QString::arg(double(ns)/1e9, 12, f, 6), the nanosecond value
rounded to microseconds.  The C++ goes through a double, which prints the
same digits only while the conversion and division error stays below the
half-microsecond print boundary (guaranteed for ns below 2^50, the domain
of the round-trip claim); above roughly 2^61 the double conversion alone
can round to a different microsecond, and the model is not claimed to match
there. -/
def ascTsChars (ns : Nat) : List Char :=
  natToChars 10 ((ns + 500) / 1000 / 1000000) ++
    '.' :: rightJustified (natToChars 10 ((ns + 500) / 1000 % 1000000)) 6 '0'

/-- The direction column. -/
def ascDirChars (m : CANMessage) : List Char :=
  if m.isTxConfirm then strChars "Tx" else strChars "Rx"

/-- One frame line of saveAsAsc, following the QString format patterns of
the writer. -/
def ascFrameLine (m : CANMessage) : List Char :=
  strChars "   " ++ rightJustified (ascTsChars m.timestamp) 12 ' ' ++
    [' '] ++ natToChars 10 m.channel ++
    strChars "  " ++ ascIdChars m ++
    strChars "  " ++ ascDirChars m ++ strChars "  " ++
    strChars "   " ++
    (if m.isError then strChars "ErrorFrame"
     else if m.isRemote then strChars "r " ++ natToChars 10 m.dlc
     else if m.isFD then
       strChars "CANFD " ++ natToChars 10 m.dlc ++ [' '] ++ ascDataHex m ++
         (if m.isBRS then strChars "  BRS" else [])
     else strChars "d " ++ natToChars 10 m.dlc ++ [' '] ++ ascDataHex m)

/-- Embedding of TraceExporter::saveAsAsc as the list of lines it writes.
The date suffix stands for the QDateTime-dependent rest of the first
line. -/
def saveAsAscLines (dateSuffix : List Char) (frames : List TraceEntry) :
    List (List Char) :=
  (strChars "date " ++ dateSuffix) ::
    strChars "base hex  timestamps absolute" ::
    strChars "no internal events logged" ::
    strChars "// version 9.0.0" ::
    strChars "// Application: AutoLens  v1.0.0" ::
    strChars "Begin Triggerblock" ::
    ((frames.map (fun e => ascFrameLine e.msg)) ++ [strChars "End TriggerBlock"])

/-! ## Tokenizer lemmas -/

theorem tokAux_ws_nil (l : List Char) (h : ∀ c ∈ l, isWsChar c = true) :
    tokAux l [] = [] := by
  induction l with
  | nil => rfl
  | cons c cs ih =>
      unfold tokAux
      rw [if_pos (h c (List.mem_cons_self _ _))]
      simp only [if_pos rfl]
      exact ih (fun x hx => h x (List.mem_cons_of_mem _ hx))

theorem tokAux_ws_acc (l : List Char) (acc : List Char)
    (h : ∀ c ∈ l, isWsChar c = true) (hacc : acc ≠ []) :
    tokAux l acc = [acc.reverse] := by
  cases l with
  | nil =>
      unfold tokAux
      rw [if_neg hacc]
  | cons c cs =>
      unfold tokAux
      rw [if_pos (h c (List.mem_cons_self _ _)), if_neg hacc]
      rw [tokAux_ws_nil cs (fun x hx => h x (List.mem_cons_of_mem _ hx))]

theorem tokAux_cons (c : Char) (cs acc : List Char) :
    tokAux (c :: cs) acc =
      if isWsChar c then
        if acc = [] then tokAux cs [] else acc.reverse :: tokAux cs []
      else tokAux cs (c :: acc) := rfl

theorem tokAux_ws_skip (g l : List Char) (h : ∀ c ∈ g, isWsChar c = true) :
    tokAux (g ++ l) [] = tokAux l [] := by
  induction g with
  | nil => rfl
  | cons c cs ih =>
      rw [List.cons_append, tokAux_cons, if_pos (h c (List.mem_cons_self _ _)),
          if_pos rfl]
      exact ih (fun x hx => h x (List.mem_cons_of_mem _ hx))

theorem tokAux_token (t : List Char) :
    ∀ (l acc : List Char), (∀ c ∈ t, isWsChar c = false) →
      tokAux (t ++ l) acc = tokAux l (t.reverse ++ acc) := by
  induction t with
  | nil => intro l acc _; simp
  | cons c cs ih =>
      intro l acc h
      rw [List.cons_append, tokAux_cons]
      rw [if_neg (by rw [h c (List.mem_cons_self _ _)]; simp)]
      rw [ih l (c :: acc) (fun x hx => h x (List.mem_cons_of_mem _ hx))]
      rw [List.reverse_cons, List.append_assoc]
      rfl

theorem tokAux_trailing_ws (a : List Char) :
    ∀ (w acc : List Char), (∀ c ∈ w, isWsChar c = true) →
      tokAux (a ++ w) acc = tokAux a acc := by
  induction a with
  | nil =>
      intro w acc h
      by_cases hacc : acc = []
      · rw [hacc]
        rw [List.nil_append, tokAux_ws_nil w h]
        rfl
      · rw [List.nil_append, tokAux_ws_acc w acc h hacc]
        unfold tokAux
        rw [if_neg hacc]
  | cons c cs ih =>
      intro w acc h
      rw [List.cons_append]
      unfold tokAux
      by_cases hws : isWsChar c = true
      · rw [if_pos hws, if_pos hws]
        by_cases hacc : acc = []
        · rw [if_pos hacc, if_pos hacc, ih w [] h]
        · rw [if_neg hacc, if_neg hacc, ih w [] h]
      · rw [if_neg hws, if_neg hws, ih w (c :: acc) h]

theorem tokenize_dropWhile (l : List Char) :
    tokenize (l.dropWhile isWsChar) = tokenize l := by
  induction l with
  | nil => rfl
  | cons c cs ih =>
      by_cases hws : isWsChar c = true
      · rw [List.dropWhile_cons_of_pos hws]
        rw [ih]
        show tokenize cs = tokAux (c :: cs) []
        unfold tokAux
        rw [if_pos hws]
        simp only [if_pos rfl]
        rfl
      · rw [List.dropWhile_cons_of_neg (by simp [hws])]

theorem tokenize_trim (l : List Char) :
    tokenize (trimChars l) = tokenize l := by
  unfold trimChars
  rw [← tokenize_dropWhile l]
  set r := l.dropWhile isWsChar with hr
  have hsplit : r = (r.reverse.dropWhile isWsChar).reverse ++
      (r.reverse.takeWhile isWsChar).reverse := by
    have h1 : r.reverse.takeWhile isWsChar ++ r.reverse.dropWhile isWsChar
        = r.reverse := List.takeWhile_append_dropWhile _ _
    have h2 := congrArg List.reverse h1
    rw [List.reverse_append, List.reverse_reverse] at h2
    exact h2.symm
  have hws : ∀ c ∈ (r.reverse.takeWhile isWsChar).reverse, isWsChar c = true := by
    intro c hc
    rw [List.mem_reverse] at hc
    exact List.mem_takeWhile_imp hc
  conv_rhs => rw [hsplit]
  unfold tokenize
  rw [tokAux_trailing_ws _ _ _ hws]

theorem tokenize_trailing_ws (a w : List Char)
    (h : ∀ c ∈ w, isWsChar c = true) : tokenize (a ++ w) = tokenize a :=
  tokAux_trailing_ws a w [] h

/-- A gap-and-token segment list rendered into one line. -/
def glue : List (List Char × List Char) → List Char → List Char
  | [], trail => trail
  | (g, t) :: ps, trail => g ++ t ++ glue ps trail

theorem tokenize_ws_only (l : List Char) (h : ∀ c ∈ l, isWsChar c = true) :
    tokenize l = [] := tokAux_ws_nil l h

theorem tokAux_flush (l acc : List Char) (hacc : acc ≠ [])
    (hl : ∀ c, l.head? = some c → isWsChar c = true) :
    tokAux l acc = acc.reverse :: tokAux l [] := by
  cases l with
  | nil =>
      unfold tokAux
      rw [if_neg hacc, if_pos rfl]
  | cons c cs =>
      have hc : isWsChar c = true := hl c rfl
      rw [tokAux_cons, tokAux_cons, if_pos hc, if_pos hc, if_neg hacc, if_pos rfl]

theorem glue_head_ws (ps : List (List Char × List Char)) (trail : List Char)
    (hg : ∀ p ∈ ps, p.1 ≠ [] ∧ ∀ c ∈ p.1, isWsChar c = true)
    (htr : ∀ c ∈ trail, isWsChar c = true) :
    ∀ c, (glue ps trail).head? = some c → isWsChar c = true := by
  intro c hc
  cases ps with
  | nil =>
      apply htr
      show c ∈ trail
      cases trail with
      | nil => exact absurd hc (by simp [glue])
      | cons a tr =>
          have : a = c := by
            have : some a = some c := hc
            exact Option.some.inj this
          rw [← this]
          exact List.mem_cons_self _ _
  | cons p ps =>
      obtain ⟨g, t⟩ := p
      obtain ⟨hg1, hg2⟩ := hg (g, t) (List.mem_cons_self _ _)
      apply hg2
      show c ∈ g
      cases hgc : g with
      | nil => exact absurd hgc hg1
      | cons a g' =>
          have hc2 : (glue ((g, t) :: ps) trail).head? = some a := by
            show ((g ++ t ++ glue ps trail)).head? = some a
            rw [hgc]
            rfl
          rw [hc2] at hc
          have h2 : a = c := Option.some.inj hc
          rw [← h2]
          exact List.mem_cons_self _ _

theorem tokenize_glue (ps : List (List Char × List Char)) (trail : List Char)
    (hg : ∀ p ∈ ps, p.1 ≠ [] ∧ ∀ c ∈ p.1, isWsChar c = true)
    (ht : ∀ p ∈ ps, p.2 ≠ [] ∧ ∀ c ∈ p.2, isWsChar c = false)
    (htr : ∀ c ∈ trail, isWsChar c = true) :
    tokenize (glue ps trail) = ps.map (fun p => p.2) := by
  induction ps with
  | nil => exact tokenize_ws_only trail htr
  | cons p ps ih =>
      obtain ⟨g, t⟩ := p
      obtain ⟨hg1, hg2⟩ := hg (g, t) (List.mem_cons_self _ _)
      obtain ⟨ht1, ht2⟩ := ht (g, t) (List.mem_cons_self _ _)
      show tokenize (g ++ t ++ glue ps trail) = t :: ps.map (fun p => p.2)
      unfold tokenize
      rw [List.append_assoc, tokAux_ws_skip g _ hg2, tokAux_token t _ _ ht2,
          List.append_nil]
      rw [tokAux_flush _ _ (by simpa using ht1)
            (glue_head_ws ps trail (fun x hx => hg x (List.mem_cons_of_mem _ hx)) htr)]
      rw [List.reverse_reverse]
      exact congrArg (List.cons t) (ih (fun x hx => hg x (List.mem_cons_of_mem _ hx))
        (fun x hx => ht x (List.mem_cons_of_mem _ hx)))

/-! ## Digit rendering and parse-back -/

/-- The accumulator step of parseNat, named for the lemmas below. -/
def pstep (digVal : Char → Option Nat) (base : Nat)
    (acc : Option Nat) (c : Char) : Option Nat :=
  match acc, digVal c with
  | some a, some d => some (a * base + d)
  | _, _ => none

theorem parseNat_eq (digVal : Char → Option Nat) (base : Nat)
    (cs : List Char) :
    parseNat digVal base cs =
      if cs = [] then none else cs.foldl (pstep digVal base) (some 0) := rfl

theorem decVal_digitToChar :
    ∀ d : Fin 10, decVal (digitToChar (d : Nat)) = some (d : Nat) := by decide

theorem hexVal_upper_digitToChar :
    ∀ d : Fin 16, hexVal (charToUpper (digitToChar (d : Nat))) = some (d : Nat) := by
  decide

theorem digitToChar_not_ws :
    ∀ d : Fin 16, isWsChar (digitToChar (d : Nat)) = false := by decide

theorem upper_digitToChar_not_ws :
    ∀ d : Fin 16, isWsChar (charToUpper (digitToChar (d : Nat))) = false := by decide

theorem foldl_pstep_map (digVal : Char → Option Nat) (base : Nat)
    (enc : Nat → Char) (ds : List Nat) :
    ∀ acc : Nat, (∀ d ∈ ds, digVal (enc d) = some d) →
    (ds.map enc).foldl (pstep digVal base) (some acc) =
      some (ds.foldl (fun a d => a * base + d) acc) := by
  induction ds with
  | nil => intro acc _; rfl
  | cons d ds ih =>
      intro acc h
      rw [List.map_cons, List.foldl_cons, List.foldl_cons]
      have hstep : pstep digVal base (some acc) (enc d) =
          some (acc * base + d) := by
        unfold pstep
        rw [h d (List.mem_cons_self _ _)]
      rw [hstep]
      exact ih (acc * base + d) (fun x hx => h x (List.mem_cons_of_mem _ hx))

theorem foldl_num (base : Nat) (ds : List Nat) :
    ∀ acc : Nat,
      ds.foldl (fun a d => a * base + d) acc =
        acc * base ^ ds.length + Nat.ofDigits base ds.reverse := by
  induction ds with
  | nil => intro acc; simp [Nat.ofDigits]
  | cons d ds ih =>
      intro acc
      rw [List.foldl_cons, ih, List.reverse_cons, Nat.ofDigits_append,
          List.length_reverse, Nat.ofDigits_singleton, List.length_cons,
          pow_succ]
      ring

theorem natToChars_mem (base n : Nat) (hb : 1 < base) :
    ∀ c ∈ natToChars base n, ∃ d : Nat, d < base ∧ c = digitToChar d := by
  intro c hc
  unfold natToChars at hc
  by_cases h0 : n = 0
  · rw [if_pos h0] at hc
    simp at hc
    exact ⟨0, by omega, hc⟩
  · rw [if_neg h0] at hc
    rw [List.mem_reverse] at hc
    obtain ⟨d, hd, rfl⟩ := List.mem_map.mp hc
    exact ⟨d, Nat.digits_lt_base hb hd, rfl⟩

theorem natToChars_ne_nil (base n : Nat) (hb : 1 < base) :
    natToChars base n ≠ [] := by
  unfold natToChars
  by_cases h0 : n = 0
  · rw [if_pos h0]
    simp
  · rw [if_neg h0]
    simp only [ne_eq, List.reverse_eq_nil_iff, List.map_eq_nil_iff]
    exact Nat.digits_ne_nil_iff_ne_zero.mpr h0

theorem parseNat_natToChars (n : Nat) :
    parseNat decVal 10 (natToChars 10 n) = some n := by
  rw [parseNat_eq, if_neg (natToChars_ne_nil 10 n (by norm_num))]
  unfold natToChars
  by_cases h0 : n = 0
  · rw [if_pos h0, h0]
    rfl
  · rw [if_neg h0]
    have hrev : ((Nat.digits 10 n).map digitToChar).reverse =
        ((Nat.digits 10 n).reverse).map digitToChar := by
      rw [List.map_reverse]
    rw [hrev, foldl_pstep_map decVal 10 digitToChar _ 0 ?hd]
    · rw [foldl_num, List.reverse_reverse, Nat.ofDigits_digits]
      simp
    · intro d hd
      rw [List.mem_reverse] at hd
      have hlt : d < 10 := Nat.digits_lt_base (by norm_num) hd
      exact decVal_digitToChar ⟨d, hlt⟩

theorem parseNat_hex_natToChars (n : Nat) :
    parseNat hexVal 16 ((natToChars 16 n).map charToUpper) = some n := by
  have hne : (natToChars 16 n).map charToUpper ≠ [] := by
    simp only [ne_eq, List.map_eq_nil_iff]
    exact natToChars_ne_nil 16 n (by norm_num)
  rw [parseNat_eq, if_neg hne]
  unfold natToChars
  by_cases h0 : n = 0
  · rw [if_pos h0, h0]
    rfl
  · rw [if_neg h0]
    have hrev : (((Nat.digits 16 n).map digitToChar).reverse).map charToUpper =
        ((Nat.digits 16 n).reverse).map (fun d => charToUpper (digitToChar d)) := by
      simp [List.map_reverse, List.map_map, Function.comp_def]
    rw [hrev, foldl_pstep_map hexVal 16 _ _ 0 ?hd]
    · rw [foldl_num, List.reverse_reverse, Nat.ofDigits_digits]
      simp
    · intro d hd
      rw [List.mem_reverse] at hd
      have hlt : d < 16 := Nat.digits_lt_base (by norm_num) hd
      exact hexVal_upper_digitToChar ⟨d, hlt⟩

theorem foldl_pstep_pad (digVal : Char → Option Nat) (base : Nat)
    (h0 : digVal '0' = some 0) (k : Nat) :
    (List.replicate k '0').foldl (pstep digVal base) (some 0) = some 0 := by
  induction k with
  | zero => rfl
  | succ k ih =>
      rw [List.replicate_succ, List.foldl_cons]
      have hstep : pstep digVal base (some 0) '0' = some 0 := by
        unfold pstep
        rw [h0]
        simp
      rw [hstep]
      exact ih

theorem parseNat_pad (digVal : Char → Option Nat) (base : Nat) (k : Nat)
    (cs : List Char) (n : Nat) (h0 : digVal '0' = some 0)
    (h : parseNat digVal base cs = some n) :
    parseNat digVal base (List.replicate k '0' ++ cs) = some n := by
  rw [parseNat_eq] at h ⊢
  by_cases hcs : cs = []
  · rw [if_pos hcs] at h
    exact absurd h (by simp)
  · rw [if_neg hcs] at h
    rw [if_neg (by simp [hcs]), List.foldl_append, foldl_pstep_pad digVal base h0]
    exact h

theorem natToChars_length_le (base n k : Nat) (hb : 1 < base)
    (hn : n < base ^ k) (hk : 1 ≤ k) : (natToChars base n).length ≤ k := by
  unfold natToChars
  by_cases h0 : n = 0
  · rw [if_pos h0]
    simpa using hk
  · rw [if_neg h0]
    rw [List.length_reverse, List.length_map]
    by_contra hlt
    push_neg at hlt
    have h1 : base ^ (Nat.digits base n).length ≤ base * n :=
      Nat.base_pow_length_digits_le base n hb h0
    have h2 : base ^ (k + 1) ≤ base ^ (Nat.digits base n).length :=
      Nat.pow_le_pow_right (by omega) (by omega)
    have h3 : base * base ^ k ≤ base * n := by
      calc base * base ^ k = base ^ (k + 1) := (pow_succ' base k).symm
        _ ≤ base ^ (Nat.digits base n).length := h2
        _ ≤ base * n := h1
    have h4 : base ^ k ≤ n := Nat.le_of_mul_le_mul_left h3 (by omega)
    omega

theorem digitToChar_ne_dot :
    ∀ d : Fin 16, ¬ digitToChar (d : Nat) = '.' := by decide

theorem digitToChar_isDigit :
    ∀ d : Fin 10, (digitToChar (d : Nat)).isDigit = true := by decide

theorem upper_digitToChar_facts :
    ∀ d : Fin 16,
      ¬ charToUpper (digitToChar (d : Nat)) = 'x' ∧
      ¬ charToUpper (digitToChar (d : Nat)) = 'X' ∧
      ¬ charToUpper (digitToChar (d : Nat)) = 'h' ∧
      ¬ charToUpper (digitToChar (d : Nat)) = 'H' := by decide

theorem takeWhile_glue (p : Char → Bool) (a : List Char) (c : Char)
    (b : List Char) (ha : ∀ x ∈ a, p x = true) (hc : p c = false) :
    (a ++ c :: b).takeWhile p = a := by
  induction a with
  | nil =>
      rw [List.nil_append]
      exact List.takeWhile_cons_of_neg (by simp [hc])
  | cons x xs ih =>
      rw [List.cons_append,
          List.takeWhile_cons_of_pos (ha x (List.mem_cons_self _ _)),
          ih (fun y hy => ha y (List.mem_cons_of_mem _ hy))]

theorem dropWhile_glue (p : Char → Bool) (a : List Char) (c : Char)
    (b : List Char) (ha : ∀ x ∈ a, p x = true) (hc : p c = false) :
    (a ++ c :: b).dropWhile p = c :: b := by
  induction a with
  | nil =>
      rw [List.nil_append]
      exact List.dropWhile_cons_of_neg (by simp [hc])
  | cons x xs ih =>
      rw [List.cons_append,
          List.dropWhile_cons_of_pos (ha x (List.mem_cons_self _ _)),
          ih (fun y hy => ha y (List.mem_cons_of_mem _ hy))]

theorem contains_false (l : List Char) (c : Char) (h : ∀ x ∈ l, ¬ x = c) :
    l.contains c = false := by
  rw [← Bool.not_eq_true, List.contains_iff_exists_mem_beq]
  rintro ⟨x, hx, hbeq⟩
  exact h x hx (beq_iff_eq.mp hbeq).symm

theorem mem_rightJustified (l : List Char) (w : Nat) (fill c : Char)
    (h : c ∈ rightJustified l w fill) : c = fill ∨ c ∈ l := by
  unfold rightJustified at h
  rcases List.mem_append.mp h with h1 | h2
  · exact Or.inl (List.eq_of_mem_replicate h1)
  · exact Or.inr h2

theorem natToChars_ne_dot (base n : Nat) (hb : 1 < base) (hb16 : base ≤ 16) :
    ∀ c ∈ natToChars base n, ¬ c = '.' := by
  intro c hc
  obtain ⟨d, hd, rfl⟩ := natToChars_mem base n hb c hc
  exact digitToChar_ne_dot ⟨d, by omega⟩

/-- The timestamp column written by saveAsAsc parses back to the exact
nanosecond count whenever the timestamp is a whole number of
microseconds. -/
theorem parseDoubleNs_ascTs (ns : Nat) (h : ns % 1000 = 0) :
    parseDoubleNs (ascTsChars ns) = some ns := by
  have hq : ascTsChars ns =
      natToChars 10 ((ns + 500) / 1000 / 1000000) ++
        '.' :: (List.replicate
            (6 - (natToChars 10 ((ns + 500) / 1000 % 1000000)).length) '0' ++
          natToChars 10 ((ns + 500) / 1000 % 1000000)) := rfl
  rw [hq]
  unfold parseDoubleNs
  have hdot : (fun c => decide (¬ c = '.')) '.' = false := by decide
  have ha : ∀ x ∈ natToChars 10 ((ns + 500) / 1000 / 1000000),
      (fun c => decide (¬ c = '.')) x = true := by
    intro x hx
    have := natToChars_ne_dot 10 _ (by norm_num) (by norm_num) x hx
    simp [this]
  have hfp : ∀ x ∈ List.replicate
        (6 - (natToChars 10 ((ns + 500) / 1000 % 1000000)).length) '0' ++
        natToChars 10 ((ns + 500) / 1000 % 1000000), ¬ x = '.' := by
    intro x hx
    rcases List.mem_append.mp hx with h1 | h2
    · rw [List.eq_of_mem_replicate h1]
      decide
    · exact natToChars_ne_dot 10 _ (by norm_num) (by norm_num) x h2
  rw [takeWhile_glue _ _ _ _ ha hdot, dropWhile_glue _ _ _ _ ha hdot]
  dsimp only
  rw [contains_false _ _ hfp]
  rw [if_neg (by simp)]
  have hane : ¬ natToChars 10 ((ns + 500) / 1000 / 1000000) = [] :=
    natToChars_ne_nil _ _ (by norm_num)
  have hfne : ¬ (List.replicate
        (6 - (natToChars 10 ((ns + 500) / 1000 % 1000000)).length) '0' ++
      natToChars 10 ((ns + 500) / 1000 % 1000000)) = [] := by
    simp only [ne_eq, List.append_eq_nil]
    intro hcon
    exact natToChars_ne_nil 10 _ (by norm_num) hcon.2
  rw [if_neg (by intro hcon; exact hane hcon.1)]
  rw [if_neg hane, if_neg hfne]
  rw [parseNat_natToChars]
  rw [parseNat_pad decVal 10 _ _ _ (by decide) (parseNat_natToChars _)]
  dsimp only
  have hlen : (List.replicate
        (6 - (natToChars 10 ((ns + 500) / 1000 % 1000000)).length) '0' ++
      natToChars 10 ((ns + 500) / 1000 % 1000000)).length = 6 := by
    rw [List.length_append, List.length_replicate]
    have hle : (natToChars 10 ((ns + 500) / 1000 % 1000000)).length ≤ 6 :=
      natToChars_length_le 10 _ 6 (by norm_num)
        (by norm_num [Nat.mod_lt]) (by norm_num)
    omega
  rw [hlen]
  have h9 : (10 : Nat) ^ 9 = 1000000000 := by norm_num
  have h6 : (10 : Nat) ^ 6 = 1000000 := by norm_num
  rw [h9, h6]
  congr 1
  omega

theorem hexU_mem (n : Nat) :
    ∀ c ∈ (natToChars 16 n).map charToUpper,
      ∃ d : Fin 16, c = charToUpper (digitToChar (d : Nat)) := by
  intro c hc
  obtain ⟨c0, hc0, rfl⟩ := List.mem_map.mp hc
  obtain ⟨d, hd, rfl⟩ := natToChars_mem 16 n (by norm_num) c0 hc0
  exact ⟨⟨d, hd⟩, rfl⟩

theorem rjHexU_facts (n k : Nat) :
    ∀ x ∈ List.replicate k '0' ++ (natToChars 16 n).map charToUpper,
      ¬ x = 'x' ∧ ¬ x = 'X' ∧ ¬ x = 'h' ∧ ¬ x = 'H' ∧ isWsChar x = false := by
  intro x hx
  rcases List.mem_append.mp hx with h1 | h2
  · rw [List.eq_of_mem_replicate h1]
    refine ⟨by decide, by decide, by decide, by decide, by decide⟩
  · obtain ⟨d, rfl⟩ := hexU_mem n x h2
    exact ⟨(upper_digitToChar_facts d).1, (upper_digitToChar_facts d).2.1,
      (upper_digitToChar_facts d).2.2.1, (upper_digitToChar_facts d).2.2.2,
      upper_digitToChar_not_ws d⟩

theorem no_lead_char (tok : List Char) (c2 : Char)
    (h : ∀ x ∈ tok, ¬ x = c2) : leadSeg ['0', c2] tok = false := by
  unfold leadSeg
  rw [decide_eq_false_iff_not]
  intro hl
  have hx : c2 ∈ tok := by
    apply List.take_subset (['0', c2].length) tok
    rw [hl]
    exact List.mem_cons_of_mem _ (List.mem_cons_self _ _)
  exact h c2 hx rfl

theorem parseByteToken_rj (b k : Nat) (hb : b < 256) :
    parseByteToken
      (List.replicate k '0' ++ (natToChars 16 b).map charToUpper) = some b := by
  unfold parseByteToken
  have hfacts := rjHexU_facts b k
  have hx : leadSeg ['0', 'x']
      (List.replicate k '0' ++ (natToChars 16 b).map charToUpper) = false :=
    no_lead_char _ 'x' (fun x hxm => (hfacts x hxm).1)
  have hX : leadSeg ['0', 'X']
      (List.replicate k '0' ++ (natToChars 16 b).map charToUpper) = false :=
    no_lead_char _ 'X' (fun x hxm => (hfacts x hxm).2.1)
  rw [if_neg (by rw [hx, hX]; simp)]
  dsimp only
  rw [parseNat_pad hexVal 16 _ _ _ (by decide) (parseNat_hex_natToChars b)]
  dsimp only
  rw [if_neg (by omega)]

theorem parseByteToken_byteHexTok (b : Nat) (hb : b < 256) :
    parseByteToken (byteHexTok b) = some b := by
  have htok : byteHexTok b =
      List.replicate (2 - ((natToChars 16 b).map charToUpper).length) '0' ++
        (natToChars 16 b).map charToUpper := rfl
  rw [htok]
  exact parseByteToken_rj b _ hb

theorem parseChannelToken_natToChars (ch : Nat) (h1 : 1 ≤ ch) (h2 : ch ≤ 255) :
    parseChannelToken (natToChars 10 ch) = some ch := by
  unfold parseChannelToken
  have hfilter : (natToChars 10 ch).filter (fun c => c.isDigit) =
      natToChars 10 ch := by
    rw [List.filter_eq_self]
    intro c hc
    obtain ⟨d, hd, rfl⟩ := natToChars_mem 10 ch (by norm_num) c hc
    exact digitToChar_isDigit ⟨d, hd⟩
  rw [hfilter]
  dsimp only
  rw [parseNat_natToChars]
  dsimp only
  rw [if_neg (by omega)]

theorem parseDlcToken_classic (dlc : Nat) (h : dlc ≤ 8) :
    parseDlcToken (natToChars 10 dlc) false = some dlc := by
  unfold parseDlcToken
  dsimp only
  rw [parseNat_natToChars]
  dsimp only
  rw [min_eq_left h]
  simp

theorem parseDlcToken_fd (dlc : Nat) (h : dlc ≤ 15) :
    parseDlcToken (natToChars 10 dlc) true = some dlc := by
  unfold parseDlcToken
  dsimp only
  rw [parseNat_natToChars]
  dsimp only
  simp [h]

theorem parseCanIdToken_ext_rj (id k : Nat) (hid : id < 2 ^ 29) :
    parseCanIdToken
      ((List.replicate k '0' ++ (natToChars 16 id).map charToUpper) ++ ['x']) =
      some (id, true) := by
  have hfacts := rjHexU_facts id k
  have hune : (natToChars 16 id).map charToUpper ≠ [] := by
    simp only [ne_eq, List.map_eq_nil_iff]
    exact natToChars_ne_nil 16 id (by norm_num)
  unfold parseCanIdToken
  rw [if_neg (by simp)]
  dsimp only
  have hlast : ((List.replicate k '0' ++ (natToChars 16 id).map charToUpper) ++
      ['x']).getLast? = some 'x' := List.getLast?_concat _
  have hext1 : ((List.replicate k '0' ++ (natToChars 16 id).map charToUpper) ++
        ['x']).getLast? = some 'x' ∨
      ((List.replicate k '0' ++ (natToChars 16 id).map charToUpper) ++
        ['x']).getLast? = some 'X' := Or.inl hlast
  rw [if_pos hext1, List.dropLast_concat]
  obtain ⟨c, hc⟩ : ∃ c, ((natToChars 16 id).map charToUpper).getLast? = some c := by
    cases hgl : ((natToChars 16 id).map charToUpper).getLast? with
    | none => exact absurd (List.getLast?_eq_none_iff.mp hgl) hune
    | some c => exact ⟨c, rfl⟩
  have hrlast : (List.replicate k '0' ++
      (natToChars 16 id).map charToUpper).getLast? = some c := by
    rw [List.getLast?_append, hc]
    rfl
  have hcmem : c ∈ List.replicate k '0' ++ (natToChars 16 id).map charToUpper :=
    List.mem_append_right _ (List.mem_of_getLast?_eq_some hc)
  have hch := hfacts c hcmem
  have hno_h : ¬ ((List.replicate k '0' ++
        (natToChars 16 id).map charToUpper).getLast? = some 'h' ∨
      (List.replicate k '0' ++
        (natToChars 16 id).map charToUpper).getLast? = some 'H') := by
    rintro (hcon | hcon) <;> rw [hrlast] at hcon
    · exact hch.2.2.1 (Option.some.inj hcon)
    · exact hch.2.2.2.1 (Option.some.inj hcon)
  rw [if_neg hno_h]
  have hlx : leadSeg ['0', 'x']
      (List.replicate k '0' ++ (natToChars 16 id).map charToUpper) = false :=
    no_lead_char _ 'x' (fun x hxm => (hfacts x hxm).1)
  have hlX : leadSeg ['0', 'X']
      (List.replicate k '0' ++ (natToChars 16 id).map charToUpper) = false :=
    no_lead_char _ 'X' (fun x hxm => (hfacts x hxm).2.1)
  have hlead : ¬ (leadSeg ['0', 'x']
        (List.replicate k '0' ++ (natToChars 16 id).map charToUpper) = true ∨
      leadSeg ['0', 'X']
        (List.replicate k '0' ++ (natToChars 16 id).map charToUpper) = true) := by
    rw [hlx, hlX]
    simp
  rw [if_neg hlead]
  rw [parseNat_pad hexVal 16 _ _ _ (by decide) (parseNat_hex_natToChars id)]
  dsimp only
  have h29 : (2 : Nat) ^ 29 = 536870912 := by norm_num
  rw [if_neg (by omega)]
  rw [decide_eq_true (Or.inl hext1)]

theorem parseCanIdToken_std_rj (id k : Nat) (hid : id < 2 ^ 11) :
    parseCanIdToken
      (List.replicate k '0' ++ (natToChars 16 id).map charToUpper) =
      some (id, false) := by
  have hfacts := rjHexU_facts id k
  have hune : (natToChars 16 id).map charToUpper ≠ [] := by
    simp only [ne_eq, List.map_eq_nil_iff]
    exact natToChars_ne_nil 16 id (by norm_num)
  obtain ⟨c, hc⟩ : ∃ c, ((natToChars 16 id).map charToUpper).getLast? = some c := by
    cases hgl : ((natToChars 16 id).map charToUpper).getLast? with
    | none => exact absurd (List.getLast?_eq_none_iff.mp hgl) hune
    | some c => exact ⟨c, rfl⟩
  have hrlast : (List.replicate k '0' ++
      (natToChars 16 id).map charToUpper).getLast? = some c := by
    rw [List.getLast?_append, hc]
    rfl
  have hcmem : c ∈ List.replicate k '0' ++ (natToChars 16 id).map charToUpper :=
    List.mem_append_right _ (List.mem_of_getLast?_eq_some hc)
  have hch := hfacts c hcmem
  unfold parseCanIdToken
  rw [if_neg (by simp [hune])]
  dsimp only
  have hnext1 : ¬ ((List.replicate k '0' ++
        (natToChars 16 id).map charToUpper).getLast? = some 'x' ∨
      (List.replicate k '0' ++
        (natToChars 16 id).map charToUpper).getLast? = some 'X') := by
    rintro (hcon | hcon) <;> rw [hrlast] at hcon <;>
      exact absurd (Option.some.inj hcon) (by first
        | exact hch.1
        | exact hch.2.1)
  rw [if_neg hnext1]
  have hno_h : ¬ ((List.replicate k '0' ++
        (natToChars 16 id).map charToUpper).getLast? = some 'h' ∨
      (List.replicate k '0' ++
        (natToChars 16 id).map charToUpper).getLast? = some 'H') := by
    rintro (hcon | hcon) <;> rw [hrlast] at hcon
    · exact hch.2.2.1 (Option.some.inj hcon)
    · exact hch.2.2.2.1 (Option.some.inj hcon)
  rw [if_neg hno_h]
  have hlx : leadSeg ['0', 'x']
      (List.replicate k '0' ++ (natToChars 16 id).map charToUpper) = false :=
    no_lead_char _ 'x' (fun x hxm => (hfacts x hxm).1)
  have hlX : leadSeg ['0', 'X']
      (List.replicate k '0' ++ (natToChars 16 id).map charToUpper) = false :=
    no_lead_char _ 'X' (fun x hxm => (hfacts x hxm).2.1)
  have hlead : ¬ (leadSeg ['0', 'x']
        (List.replicate k '0' ++ (natToChars 16 id).map charToUpper) = true ∨
      leadSeg ['0', 'X']
        (List.replicate k '0' ++ (natToChars 16 id).map charToUpper) = true) := by
    rw [hlx, hlX]
    simp
  rw [if_neg hlead]
  rw [parseNat_pad hexVal 16 _ _ _ (by decide) (parseNat_hex_natToChars id)]
  dsimp only
  have h11 : (2 : Nat) ^ 11 = 2048 := by norm_num
  rw [if_neg (by omega)]
  rw [decide_eq_false ?hfalse]
  case hfalse =>
    rintro (hcon | hcon)
    · exact hnext1 hcon
    · omega

theorem parseByteToken_brs : parseByteToken (strChars "BRS") = none := rfl

theorem takeBytes_cons_none (t : List Char) (ts : List (List Char))
    (h : parseByteToken t = none) : takeBytes (t :: ts) = [] := by
  unfold takeBytes
  rw [h]

theorem takeBytes_append (vs : List Nat) (rest : List (List Char))
    (hv : ∀ v ∈ vs, v < 256) :
    takeBytes (vs.map byteHexTok ++ rest) = vs ++ takeBytes rest := by
  induction vs with
  | nil => simp
  | cons v vs ih =>
      rw [List.map_cons, List.cons_append]
      have hc : takeBytes (byteHexTok v :: (vs.map byteHexTok ++ rest)) =
          match parseByteToken (byteHexTok v) with
          | none => []
          | some w => w :: takeBytes (vs.map byteHexTok ++ rest) := rfl
      rw [hc, parseByteToken_byteHexTok v (hv v (List.mem_cons_self _ _))]
      rw [ih (fun x hx => hv x (List.mem_cons_of_mem _ hx))]
      rfl

theorem takeBytesUpTo_exact (vs : List Nat) (rest : List (List Char))
    (hv : ∀ v ∈ vs, v < 256) :
    takeBytesUpTo vs.length (vs.map byteHexTok ++ rest) = vs := by
  induction vs with
  | nil => rfl
  | cons v vs ih =>
      rw [List.length_cons, List.map_cons, List.cons_append]
      have hc : takeBytesUpTo (vs.length + 1)
            (byteHexTok v :: (vs.map byteHexTok ++ rest)) =
          match parseByteToken (byteHexTok v) with
          | none => []
          | some w => w :: takeBytesUpTo vs.length (vs.map byteHexTok ++ rest) := rfl
      rw [hc, parseByteToken_byteHexTok v (hv v (List.mem_cons_self _ _))]
      rw [ih (fun x hx => hv x (List.mem_cons_of_mem _ hx))]

/-! ## The writer's line as a glue decomposition -/

theorem glue_append (ps qs : List (List Char × List Char)) (trail : List Char) :
    glue (ps ++ qs) trail = glue ps (glue qs trail) := by
  induction ps with
  | nil => rfl
  | cons p ps ih =>
      obtain ⟨g, t⟩ := p
      show g ++ t ++ glue (ps ++ qs) trail = g ++ t ++ glue ps (glue qs trail)
      rw [ih]

theorem sepSpace_glue (bs : List (List Char)) (tail : List Char) (hne : bs ≠ []) :
    [' '] ++ (sepSpace bs ++ tail) =
      glue (bs.map (fun b => ([' '], b))) tail := by
  induction bs with
  | nil => exact absurd rfl hne
  | cons b bs ih =>
      cases bs with
      | nil =>
          show [' '] ++ (sepSpace [b] ++ tail) = [' '] ++ b ++ glue [] tail
          show [' '] ++ (b ++ tail) = [' '] ++ b ++ glue [] tail
          rw [List.append_assoc]
          rfl
      | cons b2 bs2 =>
          show [' '] ++ ((b ++ ' ' :: sepSpace (b2 :: bs2)) ++ tail) =
            [' '] ++ b ++ glue ((b2 :: bs2).map (fun b => ([' '], b))) tail
          rw [← ih (by simp)]
          simp

theorem natToChars_not_ws (base n : Nat) (hb : 1 < base) (hb16 : base ≤ 16) :
    ∀ c ∈ natToChars base n, isWsChar c = false := by
  intro c hc
  obtain ⟨d, hd, rfl⟩ := natToChars_mem base n hb c hc
  exact digitToChar_not_ws ⟨d, by omega⟩

theorem ascTsChars_ne_nil (ns : Nat) : ascTsChars ns ≠ [] := by
  unfold ascTsChars
  simp

theorem ascTsChars_not_ws (ns : Nat) :
    ∀ c ∈ ascTsChars ns, isWsChar c = false := by
  intro c hc
  unfold ascTsChars at hc
  rcases List.mem_append.mp hc with h1 | h2
  · exact natToChars_not_ws 10 _ (by norm_num) (by norm_num) c h1
  · rcases List.mem_cons.mp h2 with h3 | h4
    · rw [h3]
      decide
    · unfold rightJustified at h4
      rcases List.mem_append.mp h4 with h5 | h6
      · rw [List.eq_of_mem_replicate h5]
        decide
      · exact natToChars_not_ws 10 _ (by norm_num) (by norm_num) c h6

theorem ascIdChars_ne_nil (m : CANMessage) : ascIdChars m ≠ [] := by
  unfold ascIdChars rightJustified
  by_cases hext : m.isExtended = true
  · rw [if_pos hext]
    simp
  · rw [if_neg hext]
    simp only [ne_eq, List.append_eq_nil, List.map_eq_nil_iff, not_and]
    intro _ hcon
    exact natToChars_ne_nil 16 m.id (by norm_num) hcon

theorem ascIdChars_not_ws (m : CANMessage) :
    ∀ c ∈ ascIdChars m, isWsChar c = false := by
  intro c hc
  unfold ascIdChars rightJustified at hc
  by_cases hext : m.isExtended = true
  · rw [if_pos hext] at hc
    rcases List.mem_append.mp hc with h1 | h2
    · exact (rjHexU_facts m.id _ c h1).2.2.2.2
    · rcases List.mem_cons.mp h2 with h3 | h4
      · rw [h3]
        decide
      · simp at h4
  · rw [if_neg hext] at hc
    exact (rjHexU_facts m.id _ c hc).2.2.2.2

theorem ascDirChars_ne_nil (m : CANMessage) : ascDirChars m ≠ [] := by
  unfold ascDirChars
  by_cases htx : m.isTxConfirm = true
  · rw [if_pos htx]
    decide
  · rw [if_neg htx]
    decide

theorem ascDirChars_not_ws (m : CANMessage) :
    ∀ c ∈ ascDirChars m, isWsChar c = false := by
  unfold ascDirChars
  by_cases htx : m.isTxConfirm = true
  · rw [if_pos htx]
    decide
  · rw [if_neg htx]
    decide

theorem byteHexTok_ne_nil (b : Nat) : byteHexTok b ≠ [] := by
  unfold byteHexTok rightJustified
  simp only [ne_eq, List.append_eq_nil, List.map_eq_nil_iff, not_and]
  intro _ hcon
  exact natToChars_ne_nil 16 b (by norm_num) hcon

theorem byteHexTok_not_ws (b : Nat) :
    ∀ c ∈ byteHexTok b, isWsChar c = false := by
  intro c hc
  unfold byteHexTok rightJustified at hc
  exact (rjHexU_facts b _ c hc).2.2.2.2

/-- Tokenizing one frame line of the writer: the shape common to the classic
and CAN-FD branches of saveAsAsc, with the column tokens abstract. -/
theorem tokenize_asc_shape (g1 ts ch idT dirT typeT dlcT : List Char)
    (bs : List (List Char)) (brs : Bool)
    (hg1 : g1 ≠ [] ∧ ∀ c ∈ g1, isWsChar c = true)
    (hts : ts ≠ [] ∧ ∀ c ∈ ts, isWsChar c = false)
    (hch : ch ≠ [] ∧ ∀ c ∈ ch, isWsChar c = false)
    (hid : idT ≠ [] ∧ ∀ c ∈ idT, isWsChar c = false)
    (hdir : dirT ≠ [] ∧ ∀ c ∈ dirT, isWsChar c = false)
    (htype : typeT ≠ [] ∧ ∀ c ∈ typeT, isWsChar c = false)
    (hdlc : dlcT ≠ [] ∧ ∀ c ∈ dlcT, isWsChar c = false)
    (hbs : ∀ b ∈ bs, b ≠ [] ∧ ∀ c ∈ b, isWsChar c = false) :
    tokenize (g1 ++ ts ++ [' '] ++ ch ++ [' ', ' '] ++ idT ++ [' ', ' '] ++
        dirT ++ [' ', ' ', ' ', ' ', ' '] ++ typeT ++ [' '] ++ dlcT ++ [' '] ++
        sepSpace bs ++ (if brs then strChars "  BRS" else [])) =
      [ts, ch, idT, dirT, typeT, dlcT] ++ bs ++
        (if brs then [strChars "BRS"] else []) := by
  have hhead : ∀ (ps2 : List (List Char × List Char)) (trail : List Char),
      (∀ p ∈ ps2, p.1 ≠ [] ∧ ∀ c ∈ p.1, isWsChar c = true) →
      (∀ p ∈ ps2, p.2 ≠ [] ∧ ∀ c ∈ p.2, isWsChar c = false) →
      (∀ c ∈ trail, isWsChar c = true) →
      tokenize (g1 ++ ts ++ [' '] ++ ch ++ [' ', ' '] ++ idT ++ [' ', ' '] ++
          dirT ++ [' ', ' ', ' ', ' ', ' '] ++ typeT ++ [' '] ++ dlcT ++
          glue ps2 trail) =
        [ts, ch, idT, dirT, typeT, dlcT] ++ ps2.map (fun p => p.2) := by
    intro ps2 trail hg2 ht2 htr2
    have hfull : g1 ++ ts ++ [' '] ++ ch ++ [' ', ' '] ++ idT ++ [' ', ' '] ++
        dirT ++ [' ', ' ', ' ', ' ', ' '] ++ typeT ++ [' '] ++ dlcT ++
        glue ps2 trail =
        glue ([(g1, ts), ([' '], ch), ([' ', ' '], idT), ([' ', ' '], dirT),
          ([' ', ' ', ' ', ' ', ' '], typeT), ([' '], dlcT)] ++ ps2) trail := by
      rw [glue_append]
      simp [glue]
    rw [hfull, tokenize_glue _ _ ?hg ?ht htr2]
    · simp
    case hg =>
      intro p hp
      rcases List.mem_append.mp hp with h1 | h2
      · fin_cases h1
        · exact hg1
        · exact ⟨by simp, by simp [isWsChar]⟩
        · exact ⟨by simp, by simp [isWsChar]⟩
        · exact ⟨by simp, by simp [isWsChar]⟩
        · exact ⟨by simp, by simp [isWsChar]⟩
        · exact ⟨by simp, by simp [isWsChar]⟩
      · exact hg2 p h2
    case ht =>
      intro p hp
      rcases List.mem_append.mp hp with h1 | h2
      · fin_cases h1
        · exact hts
        · exact hch
        · exact hid
        · exact hdir
        · exact htype
        · exact hdlc
      · exact ht2 p h2
  cases hbse : bs with
  | nil =>
      cases brs with
      | false =>
          have h0 : sepSpace [] = ([] : List Char) := rfl
          rw [h0]
          have := hhead [] [' '] (by simp) (by simp) (by decide)
          simp only [glue] at this
          simpa using this
      | true =>
          have h0 : sepSpace [] = ([] : List Char) := rfl
          rw [h0]
          have hbrsg : glue [(([' ', ' ', ' '] : List Char), strChars "BRS")] [] =
              [' '] ++ ([] ++ strChars "  BRS") := by
            simp [glue, strChars]
          have := hhead [(([' ', ' ', ' '] : List Char), strChars "BRS")] []
            (by intro p hp; fin_cases hp; exact ⟨by simp, by simp [isWsChar]⟩)
            (by intro p hp; fin_cases hp; exact ⟨by simp [strChars], by decide⟩)
            (by simp)
          rw [hbrsg] at this
          simpa using this
  | cons b0 bs' =>
      rw [hbse] at hbs
      have hmapg : ∀ p ∈ (b0 :: bs').map (fun b => (([' '] : List Char), b)),
          p.1 ≠ [] ∧ ∀ c ∈ p.1, isWsChar c = true := by
        intro p hp
        obtain ⟨b, _, rfl⟩ := List.mem_map.mp hp
        exact ⟨by simp, by simp [isWsChar]⟩
      have hmapt : ∀ p ∈ (b0 :: bs').map (fun b => (([' '] : List Char), b)),
          p.2 ≠ [] ∧ ∀ c ∈ p.2, isWsChar c = false := by
        intro p hp
        obtain ⟨b, hb, rfl⟩ := List.mem_map.mp hp
        exact hbs b hb
      cases brs with
      | false =>
          have hsep := sepSpace_glue (b0 :: bs') [] (by simp)
          have := hhead ((b0 :: bs').map (fun b => (([' '] : List Char), b))) []
            hmapg hmapt (by simp)
          rw [← hsep] at this
          simpa using this
      | true =>
          have hbrsg : glue [(([' ', ' '] : List Char), strChars "BRS")] [] =
              strChars "  BRS" := by
            simp [glue, strChars]
          have hsep := sepSpace_glue (b0 :: bs') (strChars "  BRS") (by simp)
          have := hhead ((b0 :: bs').map (fun b => (([' '] : List Char), b)) ++
              [(([' ', ' '] : List Char), strChars "BRS")]) []
            (by
              intro p hp
              rcases List.mem_append.mp hp with h1 | h2
              · exact hmapg p h1
              · fin_cases h2
                exact ⟨by simp, by simp [isWsChar]⟩)
            (by
              intro p hp
              rcases List.mem_append.mp hp with h1 | h2
              · exact hmapt p h1
              · fin_cases h2
                exact ⟨by simp [strChars], by decide⟩)
            (by simp)
          rw [glue_append, hbrsg, ← hsep] at this
          simpa using this

set_option maxHeartbeats 1000000 in
/-- Tokenizing the frame line the ASC writer emits for a non-error,
non-remote message. -/
theorem tokenize_ascFrameLine (m : CANMessage)
    (herr : m.isError = false) (hrem : m.isRemote = false)
    (hbc : m.isFD = false → m.isBRS = false) :
    tokenize (ascFrameLine m) =
      [ascTsChars m.timestamp, natToChars 10 m.channel, ascIdChars m,
        ascDirChars m, if m.isFD then strChars "CANFD" else ['d'],
        natToChars 10 m.dlc] ++
      (List.range m.dataLength).map (fun i => byteHexTok (m.data.getD i 0)) ++
      (if m.isBRS then [strChars "BRS"] else []) := by
  have hg1 : (strChars "   " ++
        List.replicate (12 - (ascTsChars m.timestamp).length) ' ') ≠ [] ∧
      ∀ c ∈ strChars "   " ++
        List.replicate (12 - (ascTsChars m.timestamp).length) ' ',
        isWsChar c = true := by
    constructor
    · simp [strChars]
    · intro c hc
      rcases List.mem_append.mp hc with h1 | h2
      · obtain rfl : c = ' ' := by simpa [strChars] using h1
        decide
      · rw [List.eq_of_mem_replicate h2]
        decide
  have htype : (if m.isFD then strChars "CANFD" else ['d']) ≠ [] ∧
      ∀ c ∈ (if m.isFD then strChars "CANFD" else ['d']),
        isWsChar c = false := by
    by_cases hfd : m.isFD = true
    · rw [if_pos hfd]
      exact ⟨by simp [strChars], by decide⟩
    · rw [if_neg hfd]
      exact ⟨by simp, by decide⟩
  have hbs : ∀ b ∈ (List.range m.dataLength).map
      (fun i => byteHexTok (m.data.getD i 0)),
      b ≠ [] ∧ ∀ c ∈ b, isWsChar c = false := by
    intro b hb
    obtain ⟨i, _, rfl⟩ := List.mem_map.mp hb
    exact ⟨byteHexTok_ne_nil _, byteHexTok_not_ws _⟩
  have hshape := tokenize_asc_shape
    (strChars "   " ++ List.replicate (12 - (ascTsChars m.timestamp).length) ' ')
    (ascTsChars m.timestamp) (natToChars 10 m.channel) (ascIdChars m)
    (ascDirChars m) (if m.isFD then strChars "CANFD" else ['d'])
    (natToChars 10 m.dlc)
    ((List.range m.dataLength).map (fun i => byteHexTok (m.data.getD i 0)))
    m.isBRS hg1
    ⟨ascTsChars_ne_nil _, ascTsChars_not_ws _⟩
    ⟨natToChars_ne_nil 10 _ (by norm_num),
      natToChars_not_ws 10 _ (by norm_num) (by norm_num)⟩
    ⟨ascIdChars_ne_nil m, ascIdChars_not_ws m⟩
    ⟨ascDirChars_ne_nil m, ascDirChars_not_ws m⟩
    htype
    ⟨natToChars_ne_nil 10 _ (by norm_num),
      natToChars_not_ws 10 _ (by norm_num) (by norm_num)⟩
    hbs
  have hline : ascFrameLine m =
      (strChars "   " ++
        List.replicate (12 - (ascTsChars m.timestamp).length) ' ') ++
      ascTsChars m.timestamp ++ [' '] ++ natToChars 10 m.channel ++
      [' ', ' '] ++ ascIdChars m ++ [' ', ' '] ++ ascDirChars m ++
      [' ', ' ', ' ', ' ', ' '] ++
      (if m.isFD then strChars "CANFD" else ['d']) ++ [' '] ++
      natToChars 10 m.dlc ++ [' '] ++
      sepSpace ((List.range m.dataLength).map
        (fun i => byteHexTok (m.data.getD i 0))) ++
      (if m.isBRS then strChars "  BRS" else []) := by
    by_cases hfd : m.isFD = true
    · simp [ascFrameLine, herr, hrem, hfd, rightJustified, ascDataHex,
        strChars, List.append_assoc]
    · have hbrs := hbc (by simpa using hfd)
      simp [ascFrameLine, herr, hrem, hfd, hbrs, rightJustified, ascDataHex,
        strChars, List.append_assoc]
  exact (congrArg tokenize hline).trans hshape

theorem dropWhile_ws_append (g l : List Char)
    (h : ∀ c ∈ g, isWsChar c = true) :
    (g ++ l).dropWhile isWsChar = l.dropWhile isWsChar := by
  induction g with
  | nil => rfl
  | cons c cs ih =>
      rw [List.cons_append,
          List.dropWhile_cons_of_pos (h c (List.mem_cons_self _ _))]
      exact ih (fun x hx => h x (List.mem_cons_of_mem _ hx))

theorem trimChars_cons_head (l : List Char) (c : Char) (xs : List Char)
    (hdrop : l.dropWhile isWsChar = c :: xs) (hc : isWsChar c = false) :
    ∃ ys, trimChars l = c :: ys := by
  unfold trimChars
  rw [hdrop]
  have hsplit : c :: xs =
      (((c :: xs).reverse.dropWhile isWsChar).reverse : List Char) ++
        ((c :: xs).reverse.takeWhile isWsChar).reverse := by
    have h1 : (c :: xs).reverse.takeWhile isWsChar ++
        (c :: xs).reverse.dropWhile isWsChar = (c :: xs).reverse :=
      List.takeWhile_append_dropWhile _ _
    have h2 := congrArg List.reverse h1
    rw [List.reverse_append, List.reverse_reverse] at h2
    exact h2.symm
  cases hT : (((c :: xs).reverse.dropWhile isWsChar).reverse : List Char) with
  | nil =>
      rw [hT] at hsplit
      rw [List.nil_append] at hsplit
      have hcw : c ∈ ((c :: xs).reverse.takeWhile isWsChar).reverse := by
        rw [← hsplit]
        exact List.mem_cons_self _ _
      rw [List.mem_reverse] at hcw
      have := List.mem_takeWhile_imp hcw
      rw [hc] at this
      cases this
  | cons t ts =>
      rw [hT] at hsplit
      have hct : c = t := by
        have := congrArg List.head? hsplit
        simp at this
        exact this
      subst hct
      exact ⟨ts, rfl⟩

theorem natToChars_head (base n : Nat) (hb : 1 < base) :
    ∃ d : Nat, d < base ∧ ∃ t, natToChars base n = digitToChar d :: t := by
  cases h : natToChars base n with
  | nil => exact absurd h (natToChars_ne_nil base n hb)
  | cons c t =>
      have hm : c ∈ natToChars base n := by
        rw [h]
        exact List.mem_cons_self _ _
      obtain ⟨d, hd, rfl⟩ := natToChars_mem base n hb c hm
      exact ⟨d, hd, t, rfl⟩

theorem digit_meta_facts :
    ∀ d : Fin 10,
      ¬ digitToChar (d : Nat) = '/' ∧
      ¬ charToLower (digitToChar (d : Nat)) = 'd' ∧
      ¬ charToLower (digitToChar (d : Nat)) = 'b' ∧
      ¬ charToLower (digitToChar (d : Nat)) = 'n' ∧
      ¬ charToLower (digitToChar (d : Nat)) = 'e' := by decide

theorem leadSeg_head (p c : Char) (ps l : List Char)
    (h : leadSeg (p :: ps) (c :: l) = true) : c = p := by
  unfold leadSeg at h
  rw [decide_eq_true_eq] at h
  rw [List.length_cons, List.take_succ_cons] at h
  exact (List.cons.inj h).1

theorem digit_not_meta (c : Char) (l : List Char)
    (hd : ∃ d : Fin 10, c = digitToChar ((d : Fin 10) : Nat)) :
    isAscMetadataLine (c :: l) = false := by
  obtain ⟨d, rfl⟩ := hd
  have hfacts := digit_meta_facts d
  unfold isAscMetadataLine
  apply decide_eq_false
  intro hcon
  rcases hcon with h | h | h | h | h | h | h | h
  · exact hfacts.1 (leadSeg_head _ _ _ _ h)
  · rw [List.map_cons] at h
    exact hfacts.2.1 (leadSeg_head _ _ _ _ h)
  · rw [List.map_cons] at h
    exact hfacts.2.2.1 (leadSeg_head _ _ _ _ h)
  · rw [List.map_cons] at h
    exact hfacts.2.2.2.1 (leadSeg_head _ _ _ _ h)
  · rw [List.map_cons] at h
    have hh := congrArg List.head? h
    simp [strChars] at hh
    exact hfacts.2.2.1 hh
  · rw [List.map_cons] at h
    have hh := congrArg List.head? h
    simp [strChars] at hh
    exact hfacts.2.2.2.2 hh
  · rw [List.map_cons] at h
    have hh := congrArg List.head? h
    simp [strChars] at hh
    exact hfacts.2.2.1 hh
  · rw [List.map_cons] at h
    have hh := congrArg List.head? h
    simp [strChars] at hh
    exact hfacts.2.2.2.2 hh

theorem asc_line_trim_head (m : CANMessage) :
    ∃ d : Fin 10, ∃ ys,
      trimChars (ascFrameLine m) = digitToChar ((d : Fin 10) : Nat) :: ys := by
  obtain ⟨d, hd, t0, hts⟩ :=
    natToChars_head 10 ((m.timestamp + 500) / 1000 / 1000000) (by norm_num)
  have htsc : ascTsChars m.timestamp = digitToChar d ::
      (t0 ++ '.' :: rightJustified
        (natToChars 10 ((m.timestamp + 500) / 1000 % 1000000)) 6 '0') := by
    unfold ascTsChars
    rw [hts]
    rfl
  have hline : ascFrameLine m = strChars "   " ++
      (List.replicate (12 - (ascTsChars m.timestamp).length) ' ' ++
        (ascTsChars m.timestamp ++
          ([' '] ++ natToChars 10 m.channel ++ strChars "  " ++ ascIdChars m ++
            strChars "  " ++ ascDirChars m ++ strChars "  " ++ strChars "   " ++
            (if m.isError then strChars "ErrorFrame"
             else if m.isRemote then strChars "r " ++ natToChars 10 m.dlc
             else if m.isFD then
               strChars "CANFD " ++ natToChars 10 m.dlc ++ [' '] ++
                 ascDataHex m ++ (if m.isBRS then strChars "  BRS" else [])
             else strChars "d " ++ natToChars 10 m.dlc ++ [' '] ++
               ascDataHex m)))) := by
    simp [ascFrameLine, rightJustified, List.append_assoc]
  have hd1 : ∀ c ∈ strChars "   ", isWsChar c = true := by decide
  have hd2 : ∀ c ∈ List.replicate (12 - (ascTsChars m.timestamp).length) ' ',
      isWsChar c = true := fun c hc => by
    rw [List.eq_of_mem_replicate hc]
    decide
  have hnws : isWsChar (digitToChar d) = false := digitToChar_not_ws ⟨d, by omega⟩
  have hex : ∃ xs, (ascFrameLine m).dropWhile isWsChar =
      digitToChar d :: xs := by
    rw [hline, dropWhile_ws_append _ _ hd1, dropWhile_ws_append _ _ hd2, htsc,
        List.cons_append, List.dropWhile_cons_of_neg (by simp [hnws])]
    exact ⟨_, rfl⟩
  obtain ⟨xs, hdrop⟩ := hex
  obtain ⟨ys, htrim⟩ := trimChars_cons_head _ _ _ hdrop hnws
  exact ⟨⟨d, hd⟩, ys, htrim⟩

theorem asc_line_guard (m : CANMessage) :
    ¬ (trimChars (ascFrameLine m) = [] ∨
       isAscMetadataLine (trimChars (ascFrameLine m)) = true) := by
  obtain ⟨d, ys, htrim⟩ := asc_line_trim_head m
  rw [htrim]
  rintro (hcon | hcon)
  · cases hcon
  · rw [digit_not_meta _ _ ⟨d, rfl⟩] at hcon
    cases hcon

theorem getD6_0 (a0 a1 a2 a3 a4 a5 : List Char) (r : List (List Char)) :
    (a0 :: a1 :: a2 :: a3 :: a4 :: a5 :: r).getD 0 [] = a0 := rfl

theorem getD6_1 (a0 a1 a2 a3 a4 a5 : List Char) (r : List (List Char)) :
    (a0 :: a1 :: a2 :: a3 :: a4 :: a5 :: r).getD 1 [] = a1 := rfl

theorem getD6_2 (a0 a1 a2 a3 a4 a5 : List Char) (r : List (List Char)) :
    (a0 :: a1 :: a2 :: a3 :: a4 :: a5 :: r).getD 2 [] = a2 := rfl

theorem getD6_3 (a0 a1 a2 a3 a4 a5 : List Char) (r : List (List Char)) :
    (a0 :: a1 :: a2 :: a3 :: a4 :: a5 :: r).getD 3 [] = a3 := rfl

theorem getD6_4 (a0 a1 a2 a3 a4 a5 : List Char) (r : List (List Char)) :
    (a0 :: a1 :: a2 :: a3 :: a4 :: a5 :: r).getD 4 [] = a4 := rfl

theorem getD6_5 (a0 a1 a2 a3 a4 a5 : List Char) (r : List (List Char)) :
    (a0 :: a1 :: a2 :: a3 :: a4 :: a5 :: r).getD 5 [] = a5 := rfl

theorem drop6_eq (a0 a1 a2 a3 a4 a5 : List Char) (r : List (List Char)) :
    (a0 :: a1 :: a2 :: a3 :: a4 :: a5 :: r).drop 6 = r := rfl

theorem len6_not_lt5 (a0 a1 a2 a3 a4 a5 : List Char) (r : List (List Char)) :
    ¬ (a0 :: a1 :: a2 :: a3 :: a4 :: a5 :: r).length < 5 := by
  simp [List.length_cons]

theorem len6_gt5 (a0 a1 a2 a3 a4 a5 : List Char) (r : List (List Char)) :
    5 < (a0 :: a1 :: a2 :: a3 :: a4 :: a5 :: r).length := by
  simp [List.length_cons]

theorem dataLength_le_64 (m : CANMessage) : m.dataLength ≤ 64 := by
  unfold CANMessage.dataLength
  by_cases hfd : m.isFD = true
  · rw [if_pos hfd]
    exact dlcToLength_le m.dlc
  · rw [if_neg hfd]
    omega

theorem drop_len_append (l1 l2 : List (List Char)) (n : Nat)
    (h : n = l1.length) : (l1 ++ l2).drop n = l2 := by
  rw [h, List.drop_left]

theorem drop_len_self (l1 : List (List Char)) (n : Nat)
    (h : n = l1.length) : l1.drop n = [] := by
  rw [h, List.drop_length]

set_option maxHeartbeats 1000000 in
/-- The loadAsc line parser recovers a representable frame from the line the
saveAsAsc writer emits for it. -/
theorem parseAscLine_ascFrameLine (m : CANMessage) (hrep : representable m) :
    parseAscLine (ascFrameLine m) = some m := by
  obtain ⟨herr, hrem, hid29, hstd, hch1, hch2, hcl, hfd15, hdlen, hpadz, hblt,
    htsmod, htslt⟩ := hrep
  have hbc : m.isFD = false → m.isBRS = false := fun h => (hcl h).2
  have htoks : tokenize (trimChars (ascFrameLine m)) =
      ascTsChars m.timestamp :: natToChars 10 m.channel :: ascIdChars m ::
      ascDirChars m :: (if m.isFD then strChars "CANFD" else ['d']) ::
      natToChars 10 m.dlc ::
      ((List.range m.dataLength).map (fun i => byteHexTok (m.data.getD i 0)) ++
        (if m.isBRS then [strChars "BRS"] else [])) := by
    rw [tokenize_trim, tokenize_ascFrameLine m herr hrem hbc]
    simp
  have hvs : (List.range m.dataLength).map
        (fun i => byteHexTok (m.data.getD i 0)) =
      ((List.range m.dataLength).map (fun i => m.data.getD i 0)).map
        byteHexTok := by
    rw [List.map_map]
    rfl
  have hvlt : ∀ v ∈ (List.range m.dataLength).map (fun i => m.data.getD i 0),
      v < 256 := by
    intro v hv
    obtain ⟨i, _, rfl⟩ := List.mem_map.mp hv
    exact getD_lt_of_mem_lt m.data i hblt
  have hvlen : ((List.range m.dataLength).map
      (fun i => m.data.getD i 0)).length = m.dataLength := by simp
  have hdata : (List.range m.dataLength).map (fun i => m.data.getD i 0) ++
      List.replicate (64 - m.dataLength) 0 = m.data :=
    data_reconstruct m.data m.dataLength m.dataLength hdlen
      (dataLength_le_64 m) le_rfl hpadz
  have hidparse : parseCanIdToken (ascIdChars m) = some (m.id, m.isExtended) := by
    by_cases hext : m.isExtended = true
    · have h1 : ascIdChars m =
          (List.replicate
              (8 - ((natToChars 16 m.id).map charToUpper).length) '0' ++
            (natToChars 16 m.id).map charToUpper) ++ ['x'] := by
        unfold ascIdChars
        rw [if_pos hext]
        rfl
      rw [h1, parseCanIdToken_ext_rj m.id _ hid29, hext]
    · have hext' : m.isExtended = false := by simpa using hext
      have h1 : ascIdChars m =
          List.replicate
              (3 - ((natToChars 16 m.id).map charToUpper).length) '0' ++
            (natToChars 16 m.id).map charToUpper := by
        unfold ascIdChars
        rw [if_neg hext]
        rfl
      rw [h1, parseCanIdToken_std_rj m.id _ (hstd hext'), hext']
  have hdir : (ascDirChars m).map charToLower =
      (if m.isTxConfirm then strChars "tx" else strChars "rx") := by
    unfold ascDirChars
    by_cases htx : m.isTxConfirm = true
    · rw [if_pos htx, if_pos htx]
      rfl
    · rw [if_neg htx, if_neg htx]
      rfl
  have hdirguard : ¬ ¬ ((ascDirChars m).map charToLower = strChars "rx" ∨
      (ascDirChars m).map charToLower = strChars "tx") := by
    rw [hdir]
    by_cases htx : m.isTxConfirm = true
    · rw [if_pos htx]
      intro hcon
      exact hcon (Or.inr rfl)
    · rw [if_neg htx]
      intro hcon
      exact hcon (Or.inl rfl)
  have htxval : decide ((ascDirChars m).map charToLower = strChars "tx") =
      m.isTxConfirm := by
    rw [hdir]
    by_cases htx : m.isTxConfirm = true
    · rw [if_pos htx, htx]
      rfl
    · have htx' : m.isTxConfirm = false := by simpa using htx
      rw [if_neg htx, htx']
      rfl
  unfold parseAscLine
  dsimp only
  rw [if_neg (asc_line_guard m)]
  rw [htoks]
  rw [if_neg (len6_not_lt5 _ _ _ _ _ _ _)]
  simp only [getD6_0, getD6_1, getD6_2, getD6_3, getD6_4, getD6_5, drop6_eq]
  rw [parseDoubleNs_ascTs m.timestamp htsmod]
  dsimp only
  rw [parseChannelToken_natToChars m.channel hch1 hch2]
  dsimp only
  rw [hidparse]
  dsimp only
  rw [if_neg hdirguard]
  rw [htxval]
  by_cases hfd : m.isFD = true
  · rw [if_pos hfd]
    rw [show (strChars "CANFD").map charToLower = strChars "canfd" from rfl]
    rw [if_neg (by decide)]
    rw [if_neg (by decide)]
    rw [if_pos (by decide :
      strChars "canfd" = strChars "canfd" ∨ strChars "canfd" = strChars "fd")]
    rw [if_pos (len6_gt5 _ _ _ _ _ _ _)]
    rw [parseDlcToken_fd m.dlc (hfd15 hfd)]
    dsimp only
    simp only [hvs]
    have hdl : m.dataLength = dlcToLength m.dlc := by
      unfold CANMessage.dataLength
      rw [if_pos hfd]
    by_cases hbrs : m.isBRS = true
    · have hbrsl : (if m.isBRS = true then [strChars "BRS"]
          else ([] : List (List Char))) = [strChars "BRS"] := if_pos hbrs
      simp only [hbrsl]
      have htb : takeBytes
          (((List.range m.dataLength).map (fun i => m.data.getD i 0)).map
            byteHexTok ++ [strChars "BRS"]) =
          (List.range m.dataLength).map (fun i => m.data.getD i 0) := by
        rw [takeBytes_append _ _ hvlt,
            takeBytes_cons_none _ _ parseByteToken_brs, List.append_nil]
      simp only [htb, hvlen]
      rw [if_neg (by
        rw [hdl]
        rintro ⟨_, hcon⟩
        exact hcon rfl)]
      have hremd : ((((List.range m.dataLength).map
            (fun i => m.data.getD i 0)).map byteHexTok) ++
            [strChars "BRS"]).drop m.dataLength = [strChars "BRS"] :=
        drop_len_append _ _ _ (by simp)
      simp only [hremd]
      rw [show ([strChars "BRS"] : List (List Char)).any
        (fun t => t.map charToUpper = strChars "BRS") = true from rfl]
      have htk : ((List.range m.dataLength).map
          (fun i => m.data.getD i 0)).take 64 =
          (List.range m.dataLength).map (fun i => m.data.getD i 0) :=
        List.take_of_length_le (by
          rw [hvlen]
          exact dataLength_le_64 m)
      rw [htk, min_eq_left (dataLength_le_64 m), hdata]
      obtain ⟨id, data, dlc, ext, fd, brsb, remb, errb, txb, ch, ts⟩ := m
      dsimp only at herr hrem hfd hbrs
      subst herr
      subst hrem
      subst hfd
      subst hbrs
      rfl
    · have hbrs' : m.isBRS = false := by simpa using hbrs
      have hbrsl : (if m.isBRS = true then [strChars "BRS"]
          else ([] : List (List Char))) = [] := by
        rw [hbrs']
        rfl
      simp only [hbrsl, List.append_nil]
      have htb : takeBytes
          (((List.range m.dataLength).map (fun i => m.data.getD i 0)).map
            byteHexTok) =
          (List.range m.dataLength).map (fun i => m.data.getD i 0) := by
        have := takeBytes_append
          ((List.range m.dataLength).map (fun i => m.data.getD i 0)) [] hvlt
        rw [List.append_nil] at this
        rw [this, show takeBytes [] = ([] : List Nat) from rfl,
            List.append_nil]
      simp only [htb, hvlen]
      rw [if_neg (by
        rw [hdl]
        rintro ⟨_, hcon⟩
        exact hcon rfl)]
      have hremd : (((List.range m.dataLength).map
            (fun i => m.data.getD i 0)).map byteHexTok).drop m.dataLength =
          ([] : List (List Char)) :=
        drop_len_self _ _ (by simp)
      simp only [hremd]
      rw [show ([] : List (List Char)).any
        (fun t => t.map charToUpper = strChars "BRS") = false from rfl]
      have htk : ((List.range m.dataLength).map
          (fun i => m.data.getD i 0)).take 64 =
          (List.range m.dataLength).map (fun i => m.data.getD i 0) :=
        List.take_of_length_le (by
          rw [hvlen]
          exact dataLength_le_64 m)
      rw [htk, min_eq_left (dataLength_le_64 m), hdata]
      obtain ⟨id, data, dlc, ext, fd, brsb, remb, errb, txb, ch, ts⟩ := m
      dsimp only at herr hrem hfd hbrs'
      subst herr
      subst hrem
      subst hfd
      subst hbrs'
      rfl
  · have hfd' : m.isFD = false := by simpa using hfd
    have hbrs' : m.isBRS = false := hbc hfd'
    rw [if_neg hfd]
    rw [show (['d'] : List Char).map charToLower = ['d'] from rfl]
    rw [if_neg (by decide)]
    rw [if_neg (by decide)]
    rw [if_neg (by decide :
      ¬ (['d'] = strChars "canfd" ∨ ['d'] = strChars "fd"))]
    rw [if_neg (by
      intro hcon
      exact hcon rfl)]
    rw [if_pos (len6_gt5 _ _ _ _ _ _ _)]
    rw [parseDlcToken_classic m.dlc (hcl hfd').1]
    dsimp only
    simp only [hvs]
    have hbrsl : (if m.isBRS = true then [strChars "BRS"]
        else ([] : List (List Char))) = [] := by
      rw [hbrs']
      rfl
    simp only [hbrsl, List.append_nil]
    have hdl : m.dataLength = min m.dlc 8 := by
      unfold CANMessage.dataLength
      rw [if_neg hfd]
    have htbu : takeBytesUpTo (min m.dlc 8)
        (((List.range m.dataLength).map (fun i => m.data.getD i 0)).map
          byteHexTok) =
        (List.range m.dataLength).map (fun i => m.data.getD i 0) := by
      have h2 : min m.dlc 8 = ((List.range m.dataLength).map
          (fun i => m.data.getD i 0)).length := by
        rw [hvlen, hdl]
      rw [h2]
      have := takeBytesUpTo_exact
        ((List.range m.dataLength).map (fun i => m.data.getD i 0)) [] hvlt
      rw [List.append_nil] at this
      exact this
    simp only [htbu, hvlen]
    rw [if_neg (by
      rw [hdl]
      intro hcon
      exact hcon rfl)]
    rw [hdata]
    obtain ⟨id, data, dlc, ext, fd, brsb, remb, errb, txb, ch, ts⟩ := m
    dsimp only at herr hrem hfd' hbrs'
    subst herr
    subst hrem
    subst hfd'
    subst hbrs'
    rfl

theorem tokAux_head_acc :
    ∀ (l : List Char) (a : Char) (acc : List Char),
      ∃ t ts, tokAux l (acc ++ [a]) = (a :: t) :: ts := by
  intro l
  induction l with
  | nil =>
      intro a acc
      refine ⟨acc.reverse, [], ?_⟩
      show (if acc ++ [a] = [] then [] else [(acc ++ [a]).reverse]) = _
      rw [if_neg (by simp)]
      simp
  | cons c cs ih =>
      intro a acc
      by_cases hws : isWsChar c = true
      · refine ⟨acc.reverse, tokAux cs [], ?_⟩
        rw [tokAux_cons, if_pos hws, if_neg (by simp)]
        simp
      · obtain ⟨t, ts, ht⟩ := ih a (c :: acc)
        refine ⟨t, ts, ?_⟩
        rw [tokAux_cons, if_neg hws]
        rw [show c :: (acc ++ [a]) = (c :: acc) ++ [a] from rfl]
        exact ht

theorem foldl_pstep_none (digVal : Char → Option Nat) (base : Nat) :
    ∀ cs : List Char, cs.foldl (pstep digVal base) none = none := by
  intro cs
  induction cs with
  | nil => rfl
  | cons c cs ih =>
      rw [List.foldl_cons]
      have hstep : pstep digVal base none c = none := by
        unfold pstep
        cases digVal c <;> rfl
      rw [hstep]
      exact ih

theorem parseNat_head_bad (digVal : Char → Option Nat) (base : Nat)
    (c : Char) (cs : List Char) (h : digVal c = none) :
    parseNat digVal base (c :: cs) = none := by
  rw [parseNat_eq, if_neg (by simp)]
  rw [List.foldl_cons]
  have hstep : pstep digVal base (some 0) c = none := by
    unfold pstep
    rw [h]
  rw [hstep]
  exact foldl_pstep_none digVal base cs

theorem parseDoubleNs_head_bad (c : Char) (t : List Char) (hdot : ¬ c = '.')
    (hdec : decVal c = none) : parseDoubleNs (c :: t) = none := by
  unfold parseDoubleNs
  dsimp only
  rw [List.takeWhile_cons_of_pos (by simp [hdot]),
      List.dropWhile_cons_of_pos (by simp [hdot])]
  by_cases hcont : (match t.dropWhile (fun c => decide (¬ c = '.')) with
      | [] => ([] : List Char)
      | _ :: t => t).contains '.' = true
  · rw [if_pos hcont]
  · rw [if_neg hcont]
    rw [if_neg (by simp)]
    rw [if_neg (by simp : ¬ (c :: t.takeWhile fun c => decide (¬ c = '.')) = [])]
    rw [parseNat_head_bad decVal 10 _ _ hdec]

theorem parseAscLine_date (suffix : List Char) :
    parseAscLine (strChars "date " ++ suffix) = none := by
  unfold parseAscLine
  dsimp only
  by_cases hguard : trimChars (strChars "date " ++ suffix) = [] ∨
      isAscMetadataLine (trimChars (strChars "date " ++ suffix)) = true
  · rw [if_pos hguard]
  · rw [if_neg hguard]
    have hdrop : (strChars "date " ++ suffix).dropWhile isWsChar =
        'd' :: (strChars "ate " ++ suffix) := by
      rw [show strChars "date " ++ suffix =
        'd' :: (strChars "ate " ++ suffix) from rfl]
      exact List.dropWhile_cons_of_neg (by decide)
    obtain ⟨ys, htrim⟩ := trimChars_cons_head _ _ _ hdrop (by decide)
    rw [htrim]
    rw [show tokenize ('d' :: ys) = tokAux ys ([] ++ ['d']) from by
      unfold tokenize
      rw [tokAux_cons, if_neg (by decide)]
      rfl]
    obtain ⟨t, ts, htoks⟩ := tokAux_head_acc ys 'd' []
    rw [htoks]
    by_cases hlen : (('d' :: t) :: ts).length < 5
    · rw [if_pos hlen]
    · rw [if_neg hlen]
      rw [show (('d' :: t) :: ts).getD 0 [] = 'd' :: t from rfl]
      rw [parseDoubleNs_head_bad 'd' t (by decide) (by decide)]

theorem filterMap_parse_map (entries : List TraceEntry)
    (h : ∀ e ∈ entries, representable e.msg) :
    (entries.map (fun e => ascFrameLine e.msg)).filterMap parseAscLine =
      entries.map (fun e => e.msg) := by
  induction entries with
  | nil => rfl
  | cons e es ih =>
      rw [List.map_cons, List.map_cons,
          List.filterMap_cons_some
            (parseAscLine_ascFrameLine e.msg (h e (List.mem_cons_self _ _))),
          ih (fun x hx => h x (List.mem_cons_of_mem _ hx))]

/-- ASC round trip at the file level: loadAsc over the exact lines saveAsAsc
writes (for any date suffix on the first header line) recovers the exported
frame list whenever every frame is representable. -/
theorem loadAsc_saveAsAscLines (dateSuffix : List Char)
    (entries : List TraceEntry) (hne : entries ≠ [])
    (hrep : ∀ e ∈ entries, representable e.msg) :
    loadAsc (saveAsAscLines dateSuffix entries) =
      .ok (entries.map (fun e => e.msg)) := by
  unfold loadAsc saveAsAscLines
  dsimp only
  rw [List.filterMap_cons_none (parseAscLine_date dateSuffix),
      List.filterMap_cons_none
        (by rfl : parseAscLine (strChars "base hex  timestamps absolute") = none),
      List.filterMap_cons_none
        (by rfl : parseAscLine (strChars "no internal events logged") = none),
      List.filterMap_cons_none
        (by rfl : parseAscLine (strChars "// version 9.0.0") = none),
      List.filterMap_cons_none
        (by rfl : parseAscLine (strChars "// Application: AutoLens  v1.0.0") = none),
      List.filterMap_cons_none
        (by rfl : parseAscLine (strChars "Begin Triggerblock") = none),
      List.filterMap_append]
  rw [filterMap_parse_map entries hrep]
  rw [show ([strChars "End TriggerBlock"] : List (List Char)).filterMap
      parseAscLine = [] from by rfl]
  rw [List.append_nil]
  rw [if_neg (by simp [hne])]

/-- The trace entry used to witness the codec round trip: a standard-id
classic frame on channel 1 with an empty payload and a whole-microsecond
timestamp. -/
def ascWitnessEntry : TraceEntry :=
  { msg := { id := 196, channel := 1, timestamp := 1234567000 } }

/-- C6: for every nonempty list of representable frames — no error or remote
frames, 29-bit ids that also fit 11 bits when standard, channel in [1, 255],
classic DLC at most 8 with no BRS, FD DLC at most 15, a 64-byte buffer that
is zero beyond the DLC-implied length, and whole-microsecond timestamps
below 2^50 ns (the domain on which the exact integer timestamp model
provably coincides with the program's double path, see representable) —
writing with the ASC writer then re-reading with the ASC reader, and
writing with the BLF writer (with the file below 2^32 bytes) then
re-reading with the BLF reader, both reproduce the frame list element-wise:
id, channel, data, FD payload length, the extended/FD/BRS/tx-echo flags and
the timestamp are preserved exactly. -/
theorem codec_roundtrip (dateSuffix : List Char) (s e : SystemTime)
    (entries : List TraceEntry) (hne : entries ≠ [])
    (hrep : ∀ x ∈ entries, representable x.msg)
    (hlen : (saveAsBLF s e entries).length < 2 ^ 32) :
    loadAsc (saveAsAscLines dateSuffix entries) =
      .ok (entries.map (fun x => x.msg)) ∧
    loadBlf (saveAsBLF s e entries) = .ok (entries.map (fun x => x.msg)) :=
  ⟨loadAsc_saveAsAscLines dateSuffix entries hne hrep,
   blf_roundtrip s e entries hne hrep hlen⟩

/-- Witness for codec_roundtrip: one concrete frame through both codecs. -/
theorem codec_roundtrip_witness :
    loadAsc (saveAsAscLines [] [ascWitnessEntry]) =
      .ok [ascWitnessEntry.msg] ∧
    loadBlf (saveAsBLF {} {} [ascWitnessEntry]) =
      .ok [ascWitnessEntry.msg] :=
  codec_roundtrip [] {} {} [ascWitnessEntry] (by simp)
    (by
      intro x hx
      rw [List.mem_singleton] at hx
      subst hx
      refine ⟨rfl, rfl, by decide, fun _ => by decide, by decide,
        by decide, fun _ => ⟨by decide, rfl⟩, fun _ => by decide,
        by decide, fun i _ => getD_replicate_zero 64 i,
        ?_, by decide, by decide⟩
      intro b hb
      rw [List.eq_of_mem_replicate hb]
      norm_num)
    (by
      rw [show (saveAsBLF {} {} [ascWitnessEntry]).length = 184 from rfl]
      norm_num)

set_option maxRecDepth 100000 in
/-- Counterexample to the claim's weaker premise: a channel-0 frame that is
neither error nor remote and is zero beyond its DLC-implied length. The BLF
writer stores channel 0 on disk and the reader clamps the channel into
[1, 255], yielding channel 1, so write-then-read does not reproduce the
frame. -/
theorem codec_roundtrip_counterexample :
    loadBlf (saveAsBLF {} {}
        [({ msg := { id := 1, channel := 0 } } : TraceEntry)]) =
      .ok [{ id := 1, channel := 1 }] ∧
    ({ id := 1, channel := 1 } : CANMessage) ≠ { id := 1, channel := 0 } :=
  ⟨rfl, by decide⟩

end AutoLens
